import Mathlib

/-!
Verification of the snapshot-reconciliation and IP-geolocation pipeline of the
xandeum analytics dashboard, as a shallow embedding of the TypeScript source.

The embedding covers:
  - the `POST` handler of the snapshot route (reconciliation of live pods
    against the database, change detection, deletion pass, metric insertion,
    geolocation trigger);
  - `IpGeolocationService` (`extractIp`, `isValidIp`, `extractUniqueIps`,
    `getNewIps`, `waitForRateLimit`, `recordRequest`, `fetchSingleBatch`,
    `chunkArray`, `storeGeolocation`, `processNewIps`).

JavaScript runtime semantics that matter are modelled explicitly:
  - number truthiness (`x ? a : b` treats `0` as false), as in the
    `storage_used ? BigInt(storage_used) : null` conversions;
  - `?.toString()` comparisons mapping `null`/`undefined` to `undefined`;
  - the Prisma client returns `Decimal` objects for the DECIMAL(10,6) column
    `storage_usage_percent`, and strict `!==` between a `Decimal` object and a
    JS number is always `true`; the two sides compare equal only when both are
    `null`.
-/

namespace Dashboard

/-! ## Geolocation service: pure string helpers -/

/-- Split a character list at every occurrence of the separator, keeping empty
groups, exactly as JavaScript's `String.prototype.split` does for a
single-character separator (`"".split(c)` gives `[""]`,
`":a".split(":")` gives `["", "a"]`). -/
def splitChars (sep : Char) : List Char → List (List Char)
  | [] => [[]]
  | c :: rest =>
    if c = sep then [] :: splitChars sep rest
    else match splitChars sep rest with
      | [] => [[c]]
      | g :: gs => (c :: g) :: gs

/-- Split a string at every occurrence of a separator character, as
JavaScript's `split` does. -/
def splitStr (sep : Char) (s : String) : List String :=
  (splitChars sep s.data).map (fun g => String.mk g)

/-- Model of `extractIp` (ip-geolocation.service.ts): split the address on ":",
return `null` when fewer than two parts, otherwise `parts[0] || null`
(the empty string is falsy in JS, hence mapped to `none`). -/
def extractIp (address : String) : Option String :=
  let parts := splitStr ':' address
  if parts.length < 2 then none
  else match parts with
    | [] => none
    | p :: _ => if p = "" then none else some p

/-- ASCII hexadecimal digit test, as used by the simplified IPv6 regex
character class `[0-9a-fA-F]`. -/
def isHexChar (c : Char) : Bool :=
  c.isDigit || ('a' ≤ c && c ≤ 'f') || ('A' ≤ c && c ≤ 'F')

/-- Model of the IPv4 regex of `isValidIp`:
the string must consist of exactly four dot-separated groups of one to three
decimal digits. -/
def isValidIpv4 (s : String) : Bool :=
  let ps := splitChars '.' s.data
  ps.length = 4 &&
    ps.all (fun p => 1 ≤ p.length && p.length ≤ 3 && p.all Char.isDigit)

/-- Model of the simplified IPv6 regex of `isValidIp`:
between 3 and 8 colon-separated groups of zero to four hex digits
(the regex asks for 2 to 7 trailing-colon groups plus one final group). -/
def isValidIpv6 (s : String) : Bool :=
  let ps := splitChars ':' s.data
  3 ≤ ps.length && ps.length ≤ 8 &&
    ps.all (fun p => p.length ≤ 4 && p.all isHexChar)

/-- Model of `isValidIp`: the IPv4 shape or the (simplified) IPv6 shape. -/
def isValidIp (ip : String) : Bool :=
  isValidIpv4 ip || isValidIpv6 ip

/-- Model of `extractUniqueIps`: fold over the addresses, keeping each
extracted valid IP once, in first-insertion order (a JS `Set` preserves
insertion order). -/
def extractUniqueIps (addresses : List String) : List String :=
  addresses.foldl
    (fun acc a =>
      match extractIp a with
      | some ip => if isValidIp ip && !acc.contains ip then acc ++ [ip] else acc
      | none => acc)
    []

/-! ## Reconciler: data model

The live report type `Pod` mirrors `types/nodes.ts`; the persisted rows
mirror the `pods` and `pod_metrics_history` tables of the Prisma migration
(`address` unique, `id SERIAL` primary key, foreign key with
`ON DELETE CASCADE` from metrics to pods). -/

/-- A live pod report, as in `types/nodes.ts` (`storage_*` and `uptime` are
`number | null` there; byte counts and uptimes are integers). -/
structure Pod where
  address : String
  is_public : Option Bool
  last_seen_timestamp : Int
  pubkey : Option String
  rpc_port : Option Int
  storage_committed : Option Int
  storage_usage_percent : Option ℚ
  storage_used : Option Int
  uptime : Option Int
  version : String
deriving DecidableEq

/-- A row of the `pods` table. -/
structure DbPod where
  id : Nat
  pubkey : Option String
  address : String
  rpcPort : Option Int
  version : String
  isPublic : Option Bool
deriving DecidableEq

/-- A row of the `pod_metrics_history` table. `timestamp` is kept as the
millisecond value `last_seen_timestamp * 1000` that
`new Date(pod.last_seen_timestamp * 1000)` wraps. -/
structure DbMetric where
  podId : Nat
  timestamp : Int
  storageUsed : Option Int
  storageCommitted : Option Int
  storageUsagePercent : Option ℚ
  uptime : Option Int
  lastSeenTimestamp : Int
deriving DecidableEq

/-- The database state: the two tables and the next SERIAL id. -/
structure Db where
  pods : List DbPod
  metrics : List DbMetric
  nextId : Nat
deriving DecidableEq

/-- Well-formedness guaranteed by the schema: primary keys are distinct and
positive (SERIAL starts at 1), `address` is unique
(migration `pods_address_key`), metrics respect the foreign key, and fresh
ids are larger than every existing id. -/
def Db.WF (db : Db) : Prop :=
  (db.pods.map (fun p => p.id)).Nodup ∧
  (db.pods.map (fun p => p.address)).Nodup ∧
  (∀ m ∈ db.metrics, ∃ p ∈ db.pods, m.podId = p.id) ∧
  (∀ p ∈ db.pods, p.id < db.nextId ∧ 1 ≤ p.id) ∧
  1 ≤ db.nextId

instance (db : Db) : Decidable db.WF := by
  unfold Db.WF; infer_instance

/-- Model of `new Map(dbPods.map((p) => [p.address, p]))` followed by
`.get(address)`: a JS `Map` keeps the last entry written for a key, so the
lookup returns the last pod with the given address. -/
def mapFind : List DbPod → String → Option DbPod
  | [], _ => none
  | p :: rest, a =>
    match mapFind rest a with
    | some q => some q
    | none => if p.address = a then some p else none

/-- Model of the one-element `metrics` relation of the `findMany`
(`orderBy: timestamp desc, take: 1`): the metric row of the pod with the
largest timestamp; a tie is resolved to the most recently inserted row. -/
def latestMetric (metrics : List DbMetric) (podId : Nat) : Option DbMetric :=
  (metrics.filter (fun m => m.podId = podId)).foldl
    (fun acc m =>
      match acc with
      | none => some m
      | some a => if a.timestamp ≤ m.timestamp then some m else some a)
    none

/-- Model of JavaScript `x?.toString()` on a `bigint | null` or
`number | null` integer value: `null`/`undefined` stay `undefined` (`none`),
a number maps to its decimal string. `BigInt(5).toString()` and
`(5).toString()` agree on integers. -/
def optIntStr (o : Option Int) : Option String :=
  o.map (fun i => toString i)

/-- Model of `latestMetrics.storageUsagePercent !== pod.storage_usage_percent`.
The column `storage_usage_percent` is `DECIMAL(10,6)`, which the Prisma client
returns as a `Decimal` object (the repository's other routes call
`.toString()` on it), while `pod.storage_usage_percent` is a JS number.
Strict `!==` between a `Decimal` object and a number is always `true`;
the comparison is `false` exactly when both sides are `null`. -/
def decimalNumNe (d : Option ℚ) (n : Option ℚ) : Bool :=
  !(d.isNone && n.isNone)

/-- Model of the `metricsChanged` expression of the snapshot `POST` handler:
no prior snapshot, or one of the four metric comparisons differs. -/
def metricsChanged (db : Db) (p : Pod) : Bool :=
  match mapFind db.pods p.address with
  | none => true
  | some dbp =>
    match latestMetric db.metrics dbp.id with
    | none => true
    | some m =>
      decide (optIntStr m.storageUsed ≠ optIntStr p.storage_used) ||
      decide (optIntStr m.storageCommitted ≠ optIntStr p.storage_committed) ||
      decimalNumNe m.storageUsagePercent p.storage_usage_percent ||
      decide (m.uptime ≠ p.uptime)

/-- Model of the `metadataChanged` expression of the snapshot `POST` handler:
no existing pod, or `pubkey`, `version` or `isPublic` differs
(`pod.pubkey ?? null` is the `Option` value itself). -/
def metadataChanged (db : Db) (p : Pod) : Bool :=
  match mapFind db.pods p.address with
  | none => true
  | some dbp =>
    decide (dbp.pubkey ≠ p.pubkey) ||
    decide (dbp.version ≠ p.version) ||
    decide (dbp.isPublic ≠ p.is_public)

/-- Model of `m.pod.storage_used ? BigInt(m.pod.storage_used) : null`:
JS truthiness sends both `null` and `0` to `null`; any other integer is kept
as its `BigInt` value. -/
def coerceStorage (o : Option Int) : Option Int :=
  match o with
  | some v => if v = 0 then none else some v
  | none => none

/-- Model of `upsertPod` (lib/db/queries/pods.ts): update the row with the
given unique address when present, otherwise create a new row with the next
SERIAL id. -/
def upsertPodDb (db : Db) (p : Pod) : Db :=
  if db.pods.any (fun q => q.address = p.address) then
    { db with pods := db.pods.map (fun q =>
        if q.address = p.address then
          { q with pubkey := p.pubkey, rpcPort := p.rpc_port,
                   version := p.version, isPublic := p.is_public }
        else q) }
  else
    { db with
      pods := db.pods ++
        [{ id := db.nextId, pubkey := p.pubkey, address := p.address,
           rpcPort := p.rpc_port, version := p.version,
           isPublic := p.is_public }],
      nextId := db.nextId + 1 }

/-- Model of the upsert loop of the `POST` handler: each pod's `upsertPod`
runs in its own `try`/`catch`, so a failing upsert (oracle `fail`) only
records the pod's address as an error and processing continues. -/
def applyUpserts (fail : String → Bool) : Db → List Pod → Db × List String
  | db, [] => (db, [])
  | db, p :: rest =>
    if fail p.address then
      let r := applyUpserts fail db rest
      (r.1, p.address :: r.2)
    else applyUpserts fail (upsertPodDb db p) rest

/-- The observable outcome of one reconcile cycle, as computed by the
snapshot `POST` handler. `geoInput` is the address list handed to
`processNewIps` when the handler triggers geolocation (`savedCount > 0`). -/
structure ReconcileResult where
  db : Db
  savedCount : Nat
  skippedCount : Nat
  deletedCount : Nat
  podsToUpsert : List Pod
  metricsInserted : List DbMetric
  upsertErrors : List String
  geoInput : Option (List String)
deriving DecidableEq

/-- The pods the deletion pass removes: those stored but not reported
(`podsToDelete` of the handler). -/
def podsToDeleteOf (db : Db) (liveNodes : List Pod) : List DbPod :=
  db.pods.filter
    (fun p => !(liveNodes.map (fun q => q.address)).contains p.address)

/-- The database after `prisma.pod.deleteMany` on the stale ids; the foreign
key `ON DELETE CASCADE` removes the deleted pods' metric rows with them. -/
def deleteStale (db : Db) (liveNodes : List Pod) : Db :=
  let deletedIds := (podsToDeleteOf db liveNodes).map (fun p => p.id)
  { pods := db.pods.filter (fun p => !deletedIds.contains p.id),
    metrics := db.metrics.filter (fun m => !deletedIds.contains m.podId),
    nextId := db.nextId }

/-- The live pods classified as having metadata changes (`podsToUpsert`). -/
def podsToUpsertOf (db : Db) (liveNodes : List Pod) : List Pod :=
  liveNodes.filter (fun p => metadataChanged db p)

/-- The live pods classified as having metric changes (`metricsToInsert`). -/
def metricsToInsertOf (db : Db) (liveNodes : List Pod) : List Pod :=
  liveNodes.filter (fun p => metricsChanged db p)

/-- One element of the `metricsData` batch: resolve the pod id by address in
the post-upsert table (`addressToPodId`), drop the row when the id is absent
or falsy (`if (!podId) return null`; id 0 is falsy in JS), otherwise build
the row with the zero-coerced `BigInt` conversions. -/
def metricRowFor (pods : List DbPod) (p : Pod) : Option DbMetric :=
  match mapFind pods p.address with
  | none => none
  | some q =>
    if q.id = 0 then none
    else some
      { podId := q.id, timestamp := p.last_seen_timestamp * 1000,
        storageUsed := coerceStorage p.storage_used,
        storageCommitted := coerceStorage p.storage_committed,
        storageUsagePercent := p.storage_usage_percent,
        uptime := p.uptime,
        lastSeenTimestamp := p.last_seen_timestamp }

/-- Model of the database part of the snapshot `POST` handler
(src/unnamed/part_004, lines 64-249):
load all pods with their latest metric, delete the pods whose address is not
reported (the foreign key cascades to their metrics), classify each live pod
by `metadataChanged` / `metricsChanged` against the pre-delete snapshot,
upsert the pods with metadata changes (per-pod failure oracle `upsertFail`),
then batch-insert one metric row per metrics-changed pod whose id can be
resolved, and trigger geolocation with the addresses of ALL reported pods
when `savedCount > 0`. -/
def reconcile (db : Db) (upsertFail : String → Bool) (liveNodes : List Pod) :
    ReconcileResult :=
  let savedCount :=
    (liveNodes.filter
      (fun p => metadataChanged db p || metricsChanged db p)).length
  let skippedCount :=
    (liveNodes.filter
      (fun p => !(metadataChanged db p || metricsChanged db p))).length
  let up := applyUpserts upsertFail (deleteStale db liveNodes)
    (podsToUpsertOf db liveNodes)
  let metricsData :=
    (metricsToInsertOf db liveNodes).filterMap (metricRowFor up.1.pods)
  { db := { up.1 with metrics := up.1.metrics ++ metricsData },
    savedCount := savedCount,
    skippedCount := skippedCount,
    deletedCount := (podsToDeleteOf db liveNodes).length,
    podsToUpsert := podsToUpsertOf db liveNodes,
    metricsInserted := metricsData,
    upsertErrors := up.2,
    geoInput :=
      if 0 < savedCount then some (liveNodes.map (fun p => p.address))
      else none }

/-- The all-successful write oracle: no per-node upsert fails. -/
def noFail : String → Bool := fun _ => false

/-! ## Geolocation service: rate limiter over a synthetic clock

Times are milliseconds on a synthetic integer clock (`Date.now()`).
The limiter state is the `requestTimestamps` array of the service. -/

/-- The constant `MAX_REQUESTS_PER_MINUTE` of ip-geolocation.service.ts. -/
def MAX_REQUESTS_PER_MINUTE : Nat := 45

/-- The constant `MAX_IPS_PER_BATCH` of ip-geolocation.service.ts. -/
def MAX_IPS_PER_BATCH : Nat := 100

/-- Model of `waitForRateLimit`, run at synthetic time `now` with window `ts`:
prune timestamps at most one minute old (the filter keeps `ts > now - 60000`),
and when the pruned window holds at least 45 entries compute
`waitTime = (now - 60000) - oldest + 100`; if that is positive, sleep for
`waitTime` (advancing the clock) and prune again with the stale
`oneMinuteAgo` cutoff computed before the sleep, exactly as the source does.
Returns the new window and the clock after any sleep. -/
def waitForRateLimit (now : Int) (ts : List Int) : List Int × Int :=
  let oneMinuteAgo := now - 60000
  let ts1 := ts.filter (fun t => oneMinuteAgo < t)
  if MAX_REQUESTS_PER_MINUTE ≤ ts1.length then
    let oldest := ts1.foldl (fun a b => min a b) (ts1.headD 0)
    let waitTime := oneMinuteAgo - oldest + 100
    if 0 < waitTime then
      (ts1.filter (fun t => oneMinuteAgo < t), now + waitTime)
    else (ts1, now)
  else (ts1, now)

/-- A provider result record, as in `types/geolocation.ts` (`IpApiResponse`).
Only the fields the pipeline reads are carried; `query` is the IP the record
answers for. -/
structure IpApiResponse where
  status : String
  query : String
  country : Option String := none
  countryCode : Option String := none
  region : Option String := none
  regionName : Option String := none
  city : Option String := none
  zip : Option String := none
  lat : Option ℚ := none
  lon : Option ℚ := none
  timezone : Option String := none
  isp : Option String := none
  org : Option String := none
  asInfo : Option String := none
deriving DecidableEq

/-- A row of the `ip_geolocation` table (unique key `ip`). -/
structure GeoRecord where
  ip : String
  status : String
  country : Option String := none
  countryCode : Option String := none
  region : Option String := none
  regionName : Option String := none
  city : Option String := none
  zip : Option String := none
  lat : Option ℚ := none
  lon : Option ℚ := none
  timezone : Option String := none
  isp : Option String := none
  org : Option String := none
  asInfo : Option String := none
deriving DecidableEq

/-- The outcome of one chunk's `fetch` against the provider: a parsed
response body, an HTTP 429, another non-success status, or a rejected
promise (transport-level error). -/
inductive FetchOutcome where
  | ok (data : List IpApiResponse)
  | rateLimited
  | httpError
  | transportError
deriving DecidableEq

/-- Model of `fetchSingleBatch` for the rate-limiter bookkeeping: wait for the
rate limit, send, and — only after the `await fetch` resolves, `duration`
milliseconds later — call `recordRequest()`, which pushes the current time.
When the fetch rejects (transport-level error) the `catch` returns `[]`
without ever reaching `recordRequest`. HTTP 429 and other non-success
statuses return `[]` after recording. Returns
(new window, clock after the response, parsed results). -/
def fetchSingleBatch (outcome : FetchOutcome) (duration : Int) (now : Int)
    (ts : List Int) : List Int × Int × List IpApiResponse :=
  let w := waitForRateLimit now ts
  let respTime := w.2 + duration
  match outcome with
  | .transportError => (w.1, respTime, [])
  | .rateLimited => (w.1 ++ [respTime], respTime, [])
  | .httpError => (w.1 ++ [respTime], respTime, [])
  | .ok data => (w.1 ++ [respTime], respTime, data)

/-- Issue `n` back-to-back chunk requests with instantly-resolving fetches,
starting at synthetic time `now` with window `ts`; returns the final window
and clock. Drives `fetchSingleBatch` the way the chunk loop of
`processNewIps` does. -/
def sendRequests : Nat → Int → List Int → List Int × Int
  | 0, now, ts => (ts, now)
  | n + 1, now, ts =>
    let r := fetchSingleBatch (.ok []) 0 now ts
    sendRequests n r.2.1 r.1

/-- The pure data content of a chunk fetch: the parsed records on success,
`[]` on HTTP 429, other non-success statuses, and transport errors. -/
def fetchData (outcome : FetchOutcome) : List IpApiResponse :=
  match outcome with
  | .ok data => data
  | .rateLimited => []
  | .httpError => []
  | .transportError => []

/-! ## Geolocation service: store and `processNewIps` -/

/-- Model of `getNewIps`: for a non-empty candidate list, query which of the
IPs already have a row and keep the others; any query error is caught inside
`getNewIps` and yields `[]` (oracle `findFail`). -/
def getNewIps (findFail : Bool) (store : List GeoRecord) (ips : List String) :
    List String :=
  if ips.isEmpty then []
  else if findFail then []
  else
    let existingIps := (store.filter (fun r => ips.contains r.ip)).map
      (fun r => r.ip)
    ips.filter (fun ip => !existingIps.contains ip)

/-- Model of the `valuesToInsert` mapping of `storeGeolocation`: a `fail`
record keeps only `ip` and `status`; a `success` record carries the location
fields. -/
def geoRecordOf (item : IpApiResponse) : GeoRecord :=
  if item.status ≠ "success" then { ip := item.query, status := item.status }
  else
    { ip := item.query, status := item.status, country := item.country,
      countryCode := item.countryCode, region := item.region,
      regionName := item.regionName, city := item.city, zip := item.zip,
      lat := item.lat, lon := item.lon, timezone := item.timezone,
      isp := item.isp, org := item.org, asInfo := item.asInfo }

/-- Insert records with `skipDuplicates: true` against the unique `ip` key:
a record whose ip is already present (also earlier in the same batch) is
skipped. -/
def insertSkipDup (store : List GeoRecord) (values : List GeoRecord) :
    List GeoRecord :=
  values.foldl
    (fun s v => if s.any (fun r => r.ip = v.ip) then s else s ++ [v]) store

/-- Model of `storeGeolocation`: empty input stores nothing; otherwise
re-check which of the returned IPs already exist, keep the genuinely new
items, insert them with skip-on-conflict, and return `newItems.length`.
A thrown query or insert error (oracles `checkFail`, `insertFail`) is
re-thrown to the caller (`Except.error` carrying the unchanged store). -/
def storeGeolocation (checkFail insertFail : Bool) (store : List GeoRecord)
    (data : List IpApiResponse) : Except (List GeoRecord) (List GeoRecord × Nat) :=
  if data.isEmpty then .ok (store, 0)
  else if checkFail then .error store
  else
    let ipsToCheck := data.map (fun item => item.query)
    let existingIpSet := (store.filter (fun r => ipsToCheck.contains r.ip)).map
      (fun r => r.ip)
    let newItems := data.filter (fun item => !existingIpSet.contains item.query)
    if newItems.isEmpty then .ok (store, 0)
    else if insertFail then .error store
    else .ok (insertSkipDup store (newItems.map geoRecordOf), newItems.length)

/-- Fuel-driven slicing loop behind `chunkArray`; the fuel only bounds the
number of slices, so any fuel at least the list length gives the slicing of
the source's `for` loop. -/
def chunkArrayFuel : Nat → List String → Nat → List (List String)
  | 0, _, _ => []
  | _ + 1, [], _ => []
  | _ + 1, _ :: _, 0 => []
  | fuel + 1, l@(_ :: _), n + 1 =>
    l.take (n + 1) :: chunkArrayFuel fuel (l.drop (n + 1)) (n + 1)

/-- Model of `chunkArray`: slices of `n` elements in order. The source only
calls it with the constant 100; a zero chunk size is mapped to `[]`. -/
def chunkArray (l : List String) (n : Nat) : List (List String) :=
  chunkArrayFuel l.length l n

/-- The per-chunk failure-injection environment of one `processNewIps` run:
whether the `getNewIps` query throws, each chunk's fetch outcome, and whether
each chunk's `storeGeolocation` existence query or insert throws. -/
structure GeoEnv where
  findFail : Bool
  fetchOutcomes : Nat → FetchOutcome
  checkFail : Nat → Bool
  insertFail : Nat → Bool

/-- The return value of `processNewIps`. -/
structure GeoResult where
  newIpsCount : Nat
  storedCount : Nat
  batchesProcessed : Nat
deriving DecidableEq

/-- Model of the chunk loop of `processNewIps`, starting at chunk index `i`:
fetch each chunk in order; a chunk with no results stores nothing and moves
on; a chunk with results runs `storeGeolocation`, whose thrown error aborts
the loop (carrying the store as mutated so far); otherwise `storedCount`
accumulates and `batchesProcessed` is incremented — on any non-empty fetch,
whether or not anything was stored. -/
def chunkLoop (env : GeoEnv) :
    Nat → List GeoRecord → List (List String) →
    Except (List GeoRecord) (List GeoRecord × Nat × Nat)
  | _, store, [] => .ok (store, 0, 0)
  | i, store, _ :: rest =>
    let results := fetchData (env.fetchOutcomes i)
    if results.isEmpty then chunkLoop env (i + 1) store rest
    else
      match storeGeolocation (env.checkFail i) (env.insertFail i) store results with
      | .error s => .error s
      | .ok sn =>
        match chunkLoop env (i + 1) sn.1 rest with
        | .error s => .error s
        | .ok r => .ok (r.1, sn.2 + r.2.1, 1 + r.2.2)

/-- The `try` block of `processNewIps`: extract unique IPs, filter to the new
ones, chunk them by 100, and run the chunk loop; an error escaping the loop
escapes the block. -/
def processNewIpsBody (env : GeoEnv) (store : List GeoRecord)
    (addresses : List String) :
    Except (List GeoRecord) (GeoResult × List GeoRecord) :=
  let uniqueIps := extractUniqueIps addresses
  if uniqueIps.isEmpty then .ok (⟨0, 0, 0⟩, store)
  else
    let newIps := getNewIps env.findFail store uniqueIps
    if newIps.isEmpty then .ok (⟨0, 0, 0⟩, store)
    else
      match chunkLoop env 0 store (chunkArray newIps MAX_IPS_PER_BATCH) with
      | .error s => .error s
      | .ok r => .ok (⟨newIps.length, r.2.1, r.2.2⟩, r.1)

/-- Model of `processNewIps`: the whole body runs under a top-level
`try`/`catch` that converts any thrown error into the zero result
(the rows already inserted by earlier chunks are not rolled back). -/
def processNewIps (env : GeoEnv) (store : List GeoRecord)
    (addresses : List String) : GeoResult × List GeoRecord :=
  match processNewIpsBody env store addresses with
  | .ok r => r
  | .error s => (⟨0, 0, 0⟩, s)

/-! ## The composed snapshot cycle -/

/-- Model of the tail of the snapshot `POST` handler: run the reconciliation,
then, only when `savedCount > 0`, run `processNewIps` over the addresses of
ALL reported pods; otherwise keep the zero geolocation result. -/
def snapshotCycle (db : Db) (geoStore : List GeoRecord) (env : GeoEnv)
    (upsertFail : String → Bool) (liveNodes : List Pod) :
    ReconcileResult × GeoResult × List GeoRecord :=
  let r := reconcile db upsertFail liveNodes
  match r.geoInput with
  | some addresses => (r, processNewIps env geoStore addresses)
  | none => (r, ⟨0, 0, 0⟩, geoStore)

/-- Decidable equality for `Except` values, used to evaluate the pipeline on
concrete inputs. -/
instance instDecEqExcept {ε α : Type} [DecidableEq ε] [DecidableEq α] :
    DecidableEq (Except ε α) := fun a b =>
  match a, b with
  | .error e, .error f => decidable_of_iff (e = f) (by simp)
  | .error _, .ok _ => .isFalse (by simp)
  | .ok _, .error _ => .isFalse (by simp)
  | .ok u, .ok v => decidable_of_iff (u = v) (by simp)

/-- The metadata fields `metadataChanged` compares, as written by an upsert. -/
def metaEq (q : DbPod) (p : Pod) : Prop :=
  q.pubkey = p.pubkey ∧ q.version = p.version ∧ q.isPublic = p.is_public

instance (q : DbPod) (p : Pod) : Decidable (metaEq q p) := by
  unfold metaEq; infer_instance

/-- The schema constraints on the `pods` table alone (unique ids and
addresses, SERIAL bounds). -/
def PodsOk (db : Db) : Prop :=
  (db.pods.map (fun p => p.id)).Nodup ∧
  (db.pods.map (fun p => p.address)).Nodup ∧
  (∀ p ∈ db.pods, p.id < db.nextId ∧ 1 ≤ p.id) ∧
  1 ≤ db.nextId

/-- The fetched response data of each chunk of a run, chunk by chunk,
starting at chunk index `i`. -/
def fetchedPerChunk (env : GeoEnv) : Nat → List (List String) →
    List (List IpApiResponse)
  | _, [] => []
  | i, _ :: rest => fetchData (env.fetchOutcomes i) :: fetchedPerChunk env (i + 1) rest

/-! ## Concrete instances used by witnesses and counterexamples -/

/-- An empty database (SERIAL ids start at 1). -/
def dbEmpty : Db := { pods := [], metrics := [], nextId := 1 }

/-- A live pod reporting `storage_used = 0`. -/
def podZero : Pod :=
  { address := "1.2.3.4:9000", is_public := some true,
    last_seen_timestamp := 1000, pubkey := some "pk", rpc_port := none,
    storage_committed := none, storage_usage_percent := none,
    storage_used := some 0, uptime := some 5, version := "1.0.0" }

/-- A live pod reporting a nonzero `storage_used`. -/
def podOne : Pod :=
  { address := "1.2.3.4:9000", is_public := some true,
    last_seen_timestamp := 1000, pubkey := some "pk", rpc_port := none,
    storage_committed := some 7, storage_usage_percent := none,
    storage_used := some 5, uptime := some 5, version := "1.0.0" }

/-- The metric row the cycle `reconcile dbEmpty noFail [podZero]` inserts. -/
def rowZero : DbMetric :=
  { podId := 1, timestamp := 1000000, storageUsed := none,
    storageCommitted := none, storageUsagePercent := none,
    uptime := some 5, lastSeenTimestamp := 1000 }

/-- A brand-new live pod (not stored yet). -/
def podA : Pod :=
  { address := "1.2.3.4:9000", is_public := some true,
    last_seen_timestamp := 1000, pubkey := some "pa", rpc_port := none,
    storage_committed := none, storage_usage_percent := none,
    storage_used := none, uptime := some 5, version := "1.0.0" }

/-- A live pod identical to its stored state in `dbC3`. -/
def podB : Pod :=
  { address := "5.6.7.8:9000", is_public := some true,
    last_seen_timestamp := 1000, pubkey := some "pb", rpc_port := none,
    storage_committed := none, storage_usage_percent := none,
    storage_used := none, uptime := some 7, version := "1.0.0" }

/-- A database storing exactly `podB`'s state. -/
def dbC3 : Db :=
  { pods := [{ id := 1, pubkey := some "pb", address := "5.6.7.8:9000",
               rpcPort := none, version := "1.0.0", isPublic := some true }],
    metrics := [{ podId := 1, timestamp := 1000000, storageUsed := none,
                  storageCommitted := none, storageUsagePercent := none,
                  uptime := some 7, lastSeenTimestamp := 1000 }],
    nextId := 2 }

/-- An environment whose provider calls succeed with empty bodies and whose
store never fails. -/
def envAllOk : GeoEnv :=
  { findFail := false, fetchOutcomes := fun _ => .ok [],
    checkFail := fun _ => false, insertFail := fun _ => false }

/-- An environment whose first chunk fetch fails with a non-success HTTP
status and whose second chunk succeeds. -/
def envC8 : GeoEnv :=
  { findFail := false,
    fetchOutcomes := fun i =>
      if i = 0 then .httpError
      else .ok [{ status := "success", query := "9.9.9.9" }],
    checkFail := fun _ => false, insertFail := fun _ => false }

/-- An environment whose geolocation insert throws. -/
def envC9 : GeoEnv :=
  { findFail := false,
    fetchOutcomes := fun _ => .ok [{ status := "success", query := "1.2.3.4" }],
    checkFail := fun _ => false, insertFail := fun _ => true }

/-- An environment whose single chunk fetch returns a record for an IP that
is already stored. -/
def geoEnvC4 : GeoEnv :=
  { findFail := false,
    fetchOutcomes := fun _ => .ok [{ status := "success", query := "5.6.7.8" }],
    checkFail := fun _ => false, insertFail := fun _ => false }

/-- A store already holding the IP `5.6.7.8`. -/
def storeC4 : List GeoRecord := [{ ip := "5.6.7.8", status := "success" }]

/-- An environment answering every chunk with one record for `8.8.8.8`. -/
def envC4W : GeoEnv :=
  { findFail := false,
    fetchOutcomes := fun _ => .ok [{ status := "success", query := "8.8.8.8" }],
    checkFail := fun _ => false, insertFail := fun _ => false }

/-- A stored pod whose latest snapshot differs from `podC5live` only in
`uptime` (100 stored vs 101 live). -/
def dbC5 : Db :=
  { pods := [{ id := 3, pubkey := some "pc", address := "7.7.7.7:9000",
               rpcPort := some 4000, version := "1.0.1", isPublic := some false }],
    metrics := [{ podId := 3, timestamp := 2000000, storageUsed := some 11,
                  storageCommitted := some 22, storageUsagePercent := none,
                  uptime := some 100, lastSeenTimestamp := 2000 }],
    nextId := 4 }

/-- The stored pod row of `dbC5`. -/
def dbpC5 : DbPod :=
  { id := 3, pubkey := some "pc", address := "7.7.7.7:9000",
    rpcPort := some 4000, version := "1.0.1", isPublic := some false }

/-- The latest stored snapshot of `dbC5`. -/
def m0C5 : DbMetric :=
  { podId := 3, timestamp := 2000000, storageUsed := some 11,
    storageCommitted := some 22, storageUsagePercent := none,
    uptime := some 100, lastSeenTimestamp := 2000 }

/-- The live report matching `dbC5` in every compared field except `uptime`,
which moved from 100 to 101. -/
def podC5live : Pod :=
  { address := "7.7.7.7:9000", is_public := some false,
    last_seen_timestamp := 2000, pubkey := some "pc", rpc_port := some 4000,
    storage_committed := some 22, storage_usage_percent := none,
    storage_used := some 11, uptime := some 101, version := "1.0.1" }

end Dashboard

namespace Dashboard

/-! ## Theorems for the geolocation service claims -/

set_option maxRecDepth 100000 in
/-- C6: evaluation of the rate-limiter model at the failing input. Starting
from an empty window at synthetic time 0, 46 back-to-back chunk requests with
instantly resolving fetches are all sent at time 0: the 46th request is not
delayed at all (the clock never advances, so fewer than 60000 ms elapse
after the 1st request's timestamp), and afterwards 46 recorded timestamps —
one more than `MAX_REQUESTS_PER_MINUTE` — lie inside the trailing 60-second
window. The source computes `waitTime = (now - 60000) - oldest + 100`, which
is never positive while the oldest timestamp is younger than 59.9 s, so the
full window never causes a wait. -/
theorem rateLimiter_46th_request_not_delayed :
    (sendRequests 46 0 []).2 = 0 ∧
    (sendRequests 46 0 []).1.length = MAX_REQUESTS_PER_MINUTE + 1 ∧
    ∀ t ∈ (sendRequests 46 0 []).1, (sendRequests 46 0 []).2 - 60000 < t := by
  decide

/-- C7 counterexample: a chunk request whose `fetch` fails with a
transport-level error records no timestamp at all — the window is unchanged
(still empty here), refuting that a timestamp is recorded for every sent
request regardless of outcome. -/
theorem fetchSingleBatch_transport_error_records_nothing :
    (fetchSingleBatch .transportError 0 0 []).1 = [] ∧
    (fetchSingleBatch .transportError 0 0 []).2.2 = [] := by
  decide

/-- C7 amended: a timestamp is recorded for every chunk request whose fetch
completes with an HTTP response — success, 429, or any other non-success
status — and it is recorded when the response arrives (`recordRequest` runs
after `await fetch`), not at send time; a transport-level error records
nothing. -/
theorem fetchSingleBatch_records_on_http_response (outcome : FetchOutcome)
    (duration now : Int) (ts : List Int)
    (h : outcome ≠ FetchOutcome.transportError) :
    (fetchSingleBatch outcome duration now ts).1 =
      (waitForRateLimit now ts).1 ++ [(waitForRateLimit now ts).2 + duration] := by
  cases outcome
  case transportError => exact absurd rfl h
  all_goals rfl

/-- Witness for the C7 amended theorem at a concrete 429 response. -/
theorem fetchSingleBatch_records_on_http_response_witness :
    FetchOutcome.rateLimited ≠ FetchOutcome.transportError ∧
    (fetchSingleBatch .rateLimited 5 7 [3]).1 =
      (waitForRateLimit 7 [3]).1 ++ [(waitForRateLimit 7 [3]).2 + 5] :=
  ⟨by decide, fetchSingleBatch_records_on_http_response .rateLimited 5 7 [3]
    (by decide)⟩

/-- C8: a chunk whose fetch returns HTTP 429, another non-success status, or
fails with a transport-level error yields zero results: nothing is stored for
it, no error is raised (its `storeGeolocation` is never reached, so not even
an injected store failure can abort), and the loop continues with the next
chunk exactly as if the failed chunk had not been there. -/
theorem chunkLoop_tolerates_failed_chunk (env : GeoEnv) (i : Nat)
    (store : List GeoRecord) (c : List String) (rest : List (List String))
    (h : env.fetchOutcomes i = FetchOutcome.rateLimited ∨
         env.fetchOutcomes i = FetchOutcome.httpError ∨
         env.fetchOutcomes i = FetchOutcome.transportError) :
    chunkLoop env i store (c :: rest) = chunkLoop env (i + 1) store rest := by
  rcases h with h | h | h <;> simp [chunkLoop, fetchData, h]

/-- Witness for C8: the first chunk's HTTP failure is skipped and the second
chunk is still fetched and stored. -/
theorem chunkLoop_tolerates_failed_chunk_witness :
    (envC8.fetchOutcomes 0 = FetchOutcome.rateLimited ∨
     envC8.fetchOutcomes 0 = FetchOutcome.httpError ∨
     envC8.fetchOutcomes 0 = FetchOutcome.transportError) ∧
    chunkLoop envC8 0 [] [["1.1.1.1"], ["9.9.9.9"]] =
      chunkLoop envC8 1 [] [["9.9.9.9"]] ∧
    chunkLoop envC8 1 [] [["9.9.9.9"]] =
      .ok ([{ ip := "9.9.9.9", status := "success" }], 1, 1) :=
  ⟨Or.inr (Or.inl (by decide)),
    chunkLoop_tolerates_failed_chunk envC8 0 [] ["1.1.1.1"] [["9.9.9.9"]]
      (Or.inr (Or.inl (by decide))),
    by decide⟩

/-- C9: `processNewIps` never propagates an error: when its body throws
anywhere (extraction, existence check, fetch handling, storage), the
top-level catch converts the outcome into the zero result, keeping whatever
rows earlier chunks already inserted; when the body succeeds, its result is
returned unchanged. -/
theorem processNewIps_never_throws (env : GeoEnv) (store : List GeoRecord)
    (addresses : List String) :
    (∀ s, processNewIpsBody env store addresses = .error s →
      processNewIps env store addresses = (⟨0, 0, 0⟩, s)) ∧
    (∀ r, processNewIpsBody env store addresses = .ok r →
      processNewIps env store addresses = r) := by
  constructor <;> intro x h <;> simp [processNewIps, h]

/-- Witness for C9 at an environment whose geolocation insert throws: the
body errors and the caller still receives the zero result. -/
theorem processNewIps_never_throws_witness :
    processNewIpsBody envC9 [] ["1.2.3.4:80"] = .error [] ∧
    processNewIps envC9 [] ["1.2.3.4:80"] = (⟨0, 0, 0⟩, []) :=
  ⟨by decide,
    (processNewIps_never_throws envC9 [] ["1.2.3.4:80"]).1 [] (by decide)⟩

/-! ## Theorems for the reconciler claims -/

/-- Upserting a pod never touches the metrics table. -/
theorem upsertPodDb_metrics (db : Db) (p : Pod) :
    (upsertPodDb db p).metrics = db.metrics := by
  unfold upsertPodDb
  split <;> rfl

/-- The upsert loop never touches the metrics table. -/
theorem applyUpserts_metrics (fail : String → Bool) :
    ∀ (l : List Pod) (db : Db), (applyUpserts fail db l).1.metrics = db.metrics
  | [], _ => rfl
  | p :: rest, db => by
    unfold applyUpserts
    by_cases h : fail p.address
    · simp only [h, if_pos]
      exact applyUpserts_metrics fail rest db
    · simp only [h, if_neg, Bool.false_eq_true, not_false_iff]
      rw [applyUpserts_metrics fail rest (upsertPodDb db p),
        upsertPodDb_metrics]

/-- The zero-to-null coercion never produces a zero. -/
theorem coerceStorage_ne_zero (o : Option Int) : coerceStorage o ≠ some 0 := by
  cases o with
  | none => simp [coerceStorage]
  | some v =>
    by_cases h : v = 0 <;> simp [coerceStorage, h]

/-! ### Lemmas about `mapFind` -/

/-- A successful `mapFind` returns a stored pod with the requested address. -/
theorem mapFind_eq_some_imp :
    ∀ {pods : List DbPod} {a : String} {q : DbPod},
      mapFind pods a = some q → q ∈ pods ∧ q.address = a
  | [], _, _, h => by cases h
  | p :: rest, a, q, h => by
    unfold mapFind at h
    cases hr : mapFind rest a with
    | some r =>
      rw [hr] at h
      have hrq : r = q := Option.some.inj h
      subst hrq
      obtain ⟨hm, ha⟩ := mapFind_eq_some_imp hr
      exact ⟨List.mem_cons_of_mem p hm, ha⟩
    | none =>
      rw [hr] at h
      by_cases hp : p.address = a
      · rw [if_pos hp] at h
        have hpq : p = q := Option.some.inj h
        subst hpq
        exact ⟨List.mem_cons_self p rest, hp⟩
      · rw [if_neg hp] at h; cases h

/-- A failed `mapFind` means no stored pod has the requested address. -/
theorem mapFind_eq_none_imp :
    ∀ {pods : List DbPod} {a : String},
      mapFind pods a = none → ∀ q ∈ pods, q.address ≠ a
  | [], _, _, q, hq => absurd hq (List.not_mem_nil q)
  | p :: rest, a, h, q, hq => by
    unfold mapFind at h
    cases hr : mapFind rest a with
    | some r => rw [hr] at h; cases h
    | none =>
      rw [hr] at h
      by_cases hp : p.address = a
      · rw [if_pos hp] at h; cases h
      · rcases List.mem_cons.mp hq with hq | hq
        · exact hq ▸ hp
        · exact mapFind_eq_none_imp hr q hq

/-- When addresses are unique, `mapFind` finds exactly the stored pod with
the requested address. -/
theorem mapFind_unique :
    ∀ {pods : List DbPod}, (pods.map (fun p => p.address)).Nodup →
      ∀ {q : DbPod}, q ∈ pods → ∀ {a : String}, q.address = a →
        mapFind pods a = some q
  | [], _, q, hq, _, _ => absurd hq (List.not_mem_nil q)
  | p :: rest, hnd, q, hq, a, ha => by
    rw [List.map_cons] at hnd
    have hnd2 := List.nodup_cons.mp hnd
    unfold mapFind
    rcases List.mem_cons.mp hq with hq | hq
    · subst hq
      cases hr : mapFind rest a with
      | some r =>
        obtain ⟨hrm, hra⟩ := mapFind_eq_some_imp hr
        have : q.address ∈ rest.map (fun p => p.address) := by
          rw [ha, ← hra]
          exact List.mem_map_of_mem (fun p => p.address) hrm
        exact absurd this hnd2.1
      | none => rw [if_pos ha]
    · have := mapFind_unique hnd2.2 hq ha
      simp [this]

/-! ### Lemmas about `upsertPodDb` and `applyUpserts` -/

/-- A pod whose address is not the upserted one is untouched. -/
theorem upsertPodDb_mem_of_ne {db : Db} {p : Pod} {q : DbPod}
    (hq : q ∈ db.pods) (hne : q.address ≠ p.address) :
    q ∈ (upsertPodDb db p).pods := by
  unfold upsertPodDb
  split
  · exact List.mem_map.mpr ⟨q, hq, by rw [if_neg hne]⟩
  · exact List.mem_append_left _ hq

/-- A pod of the upserted table whose address is not the upserted one was
already stored. -/
theorem upsertPodDb_mem_imp {db : Db} {p : Pod} {q : DbPod}
    (hq : q ∈ (upsertPodDb db p).pods) (hne : q.address ≠ p.address) :
    q ∈ db.pods := by
  unfold upsertPodDb at hq
  split at hq
  · obtain ⟨q0, hq0, hval⟩ := List.mem_map.mp hq
    by_cases h0 : q0.address = p.address
    · rw [if_pos h0] at hval
      subst hval
      exact absurd h0 hne
    · rw [if_neg h0] at hval
      subst hval
      exact hq0
  · rcases List.mem_append.mp hq with h | h
    · exact h
    · simp only [List.mem_singleton] at h
      subst h
      exact absurd rfl hne

/-- Every pod of the upserted table carrying the upserted address carries the
upserted metadata. -/
theorem upsertPodDb_matches {db : Db} {p : Pod} {q : DbPod}
    (hq : q ∈ (upsertPodDb db p).pods) (ha : q.address = p.address) :
    metaEq q p := by
  unfold upsertPodDb at hq
  split at hq
  · obtain ⟨q0, hq0, hval⟩ := List.mem_map.mp hq
    by_cases h0 : q0.address = p.address
    · rw [if_pos h0] at hval
      subst hval
      exact ⟨rfl, rfl, rfl⟩
    · rw [if_neg h0] at hval
      subst hval
      exact absurd ha h0
  · next hall =>
    rcases List.mem_append.mp hq with h | h
    · have : db.pods.any (fun r => r.address = p.address) = true :=
        List.any_eq_true.mpr ⟨q, h, by simp [ha]⟩
      exact absurd this hall
    · simp only [List.mem_singleton] at h
      subst h
      exact ⟨rfl, rfl, rfl⟩

/-- After an upsert, some pod carries the upserted address. -/
theorem upsertPodDb_exists {db : Db} {p : Pod} :
    ∃ q ∈ (upsertPodDb db p).pods, q.address = p.address := by
  unfold upsertPodDb
  split
  · next hany =>
    obtain ⟨q0, hq0, hq0a⟩ := List.any_eq_true.mp hany
    have h0 : q0.address = p.address := by simpa using hq0a
    refine ⟨_, List.mem_map.mpr ⟨q0, hq0, rfl⟩, ?_⟩
    rw [if_pos h0]
    exact h0
  · exact ⟨_, List.mem_append_right _ (List.mem_singleton_self _), rfl⟩

/-- Where each pod of the upserted table comes from: either an already-stored
pod with the same id and address, or the freshly created row, whose id is the
next SERIAL value and whose address was not stored before. -/
theorem upsertPodDb_origin {db : Db} {p : Pod} {q : DbPod}
    (hq : q ∈ (upsertPodDb db p).pods) :
    (∃ q0 ∈ db.pods, q.id = q0.id ∧ q.address = q0.address) ∨
      (db.nextId ≤ q.id ∧ ∀ q0 ∈ db.pods, q0.address ≠ q.address) := by
  unfold upsertPodDb at hq
  split at hq
  · obtain ⟨q0, hq0, hval⟩ := List.mem_map.mp hq
    by_cases h0 : q0.address = p.address
    · rw [if_pos h0] at hval
      subst hval
      exact Or.inl ⟨q0, hq0, rfl, rfl⟩
    · rw [if_neg h0] at hval
      subst hval
      exact Or.inl ⟨q0, hq0, rfl, rfl⟩
  · next hall =>
    rcases List.mem_append.mp hq with h | h
    · exact Or.inl ⟨q, h, rfl, rfl⟩
    · simp only [List.mem_singleton] at h
      subst h
      refine Or.inr ⟨Nat.le_refl _, ?_⟩
      intro q0 hq0 hc
      have : db.pods.any (fun r => r.address = p.address) = true :=
        List.any_eq_true.mpr ⟨q0, hq0, by simp [hc]⟩
      exact absurd this hall

/-- Upserting never lowers the next SERIAL id. -/
theorem upsertPodDb_nextId {db : Db} {p : Pod} :
    db.nextId ≤ (upsertPodDb db p).nextId := by
  unfold upsertPodDb
  split
  · exact Nat.le_refl _
  · exact Nat.le_succ _

/-- An upsert keeps the `pods` table schema-clean. -/
theorem upsertPodDb_podsOk {db : Db} {p : Pod} (h : PodsOk db) :
    PodsOk (upsertPodDb db p) := by
  obtain ⟨hid, haddr, hbound, hnext⟩ := h
  unfold upsertPodDb
  split
  · refine ⟨?_, ?_, ?_, hnext⟩
    · have : (db.pods.map (fun q =>
          if q.address = p.address then
            { q with pubkey := p.pubkey, rpcPort := p.rpc_port,
                     version := p.version, isPublic := p.is_public }
          else q)).map (fun r => r.id) = db.pods.map (fun r => r.id) := by
        rw [List.map_map]
        refine List.map_congr_left ?_
        intro q _
        by_cases h0 : q.address = p.address <;> simp [Function.comp, h0]
      rw [this]; exact hid
    · have : (db.pods.map (fun q =>
          if q.address = p.address then
            { q with pubkey := p.pubkey, rpcPort := p.rpc_port,
                     version := p.version, isPublic := p.is_public }
          else q)).map (fun r => r.address) = db.pods.map (fun r => r.address) := by
        rw [List.map_map]
        refine List.map_congr_left ?_
        intro q _
        by_cases h0 : q.address = p.address <;> simp [Function.comp, h0]
      rw [this]; exact haddr
    · intro q hq
      obtain ⟨q0, hq0, hval⟩ := List.mem_map.mp hq
      have hqid : q.id = q0.id := by
        by_cases h0 : q0.address = p.address
        · rw [if_pos h0] at hval; rw [← hval]
        · rw [if_neg h0] at hval; rw [← hval]
      rw [hqid]
      exact hbound q0 hq0
  · next hall =>
    refine ⟨?_, ?_, ?_, ?_⟩
    · rw [List.map_append]
      refine List.Nodup.append hid (by simp) ?_
      intro x hx hy
      simp only [List.map_cons, List.map_nil, List.mem_singleton] at hy
      obtain ⟨q0, hq0, hval⟩ := List.mem_map.mp hx
      have hb := (hbound q0 hq0).1
      omega
    · rw [List.map_append]
      refine List.Nodup.append haddr (by simp) ?_
      intro x hx hy
      simp only [List.map_cons, List.map_nil, List.mem_singleton] at hy
      obtain ⟨q0, hq0, hval⟩ := List.mem_map.mp hx
      refine absurd (List.any_eq_true.mpr ⟨q0, hq0, ?_⟩) hall
      simp [hval, hy]
    · intro q hq
      rcases List.mem_append.mp hq with h | h
      · have := hbound q h
        dsimp only
        omega
      · simp only [List.mem_singleton] at h
        subst h
        dsimp only
        omega
    · dsimp only
      omega

/-- The upsert loop keeps the `pods` table schema-clean. -/
theorem applyUpserts_podsOk (fail : String → Bool) :
    ∀ (l : List Pod) (db : Db), PodsOk db → PodsOk (applyUpserts fail db l).1
  | [], _, h => h
  | p :: rest, db, h => by
    unfold applyUpserts
    by_cases hf : fail p.address
    · simp only [hf, if_pos]
      exact applyUpserts_podsOk fail rest db h
    · simp only [hf, Bool.false_eq_true, if_neg, not_false_iff]
      exact applyUpserts_podsOk fail rest _ (upsertPodDb_podsOk h)

/-- The upsert loop never lowers the next SERIAL id. -/
theorem applyUpserts_nextId (fail : String → Bool) :
    ∀ (l : List Pod) (db : Db), db.nextId ≤ (applyUpserts fail db l).1.nextId
  | [], _ => Nat.le_refl _
  | p :: rest, db => by
    unfold applyUpserts
    by_cases hf : fail p.address
    · simp only [hf, if_pos]
      exact applyUpserts_nextId fail rest db
    · simp only [hf, Bool.false_eq_true, if_neg, not_false_iff]
      exact le_trans upsertPodDb_nextId (applyUpserts_nextId fail rest _)

/-- A pod whose address is touched by none of the upserts survives the loop
unchanged. -/
theorem applyUpserts_mem_of_ne (fail : String → Bool) :
    ∀ (l : List Pod) (db : Db) (q : DbPod), q ∈ db.pods →
      (∀ p ∈ l, p.address ≠ q.address) → q ∈ (applyUpserts fail db l).1.pods
  | [], _, _, hq, _ => hq
  | p :: rest, db, q, hq, hne => by
    unfold applyUpserts
    by_cases hf : fail p.address
    · simp only [hf, if_pos]
      exact applyUpserts_mem_of_ne fail rest db q hq
        (fun r hr => hne r (List.mem_cons_of_mem p hr))
    · simp only [hf, Bool.false_eq_true, if_neg, not_false_iff]
      exact applyUpserts_mem_of_ne fail rest _ q
        (upsertPodDb_mem_of_ne hq
          (fun hc => hne p (List.mem_cons_self p rest) hc.symm))
        (fun r hr => hne r (List.mem_cons_of_mem p hr))

/-- A pod of the final table whose address is touched by none of the upserts
was already in the base table. -/
theorem applyUpserts_mem_imp (fail : String → Bool) :
    ∀ (l : List Pod) (db : Db) (q : DbPod),
      q ∈ (applyUpserts fail db l).1.pods →
      (∀ p ∈ l, p.address ≠ q.address) → q ∈ db.pods
  | [], _, _, hq, _ => hq
  | p :: rest, db, q, hq, hne => by
    unfold applyUpserts at hq
    by_cases hf : fail p.address
    · simp only [hf, if_pos] at hq
      exact applyUpserts_mem_imp fail rest db q hq
        (fun r hr => hne r (List.mem_cons_of_mem p hr))
    · simp only [hf, Bool.false_eq_true, if_neg, not_false_iff] at hq
      exact upsertPodDb_mem_imp
        (applyUpserts_mem_imp fail rest _ q hq
          (fun r hr => hne r (List.mem_cons_of_mem p hr)))
        (fun hc => hne p (List.mem_cons_self p rest) hc.symm)

/-- Where each pod of the final table comes from: an already-stored pod with
the same id and address, or a row freshly created by the loop. -/
theorem applyUpserts_origin (fail : String → Bool) :
    ∀ (l : List Pod) (db : Db) (q : DbPod),
      q ∈ (applyUpserts fail db l).1.pods →
      (∃ q0 ∈ db.pods, q.id = q0.id ∧ q.address = q0.address) ∨
        (db.nextId ≤ q.id ∧ ∀ q0 ∈ db.pods, q0.address ≠ q.address)
  | [], _, _, hq => Or.inl ⟨_, hq, rfl, rfl⟩
  | p :: rest, db, q, hq => by
    unfold applyUpserts at hq
    by_cases hf : fail p.address
    · simp only [hf, if_pos] at hq
      exact applyUpserts_origin fail rest db q hq
    · simp only [hf, Bool.false_eq_true, if_neg, not_false_iff] at hq
      rcases applyUpserts_origin fail rest _ q hq with
        ⟨q0, hq0, hid, haddr⟩ | ⟨hle, hfresh⟩
      · rcases upsertPodDb_origin hq0 with
          ⟨q1, hq1, hid1, haddr1⟩ | ⟨hle1, hfresh1⟩
        · exact Or.inl ⟨q1, hq1, hid.trans hid1, haddr.trans haddr1⟩
        · refine Or.inr ⟨by rw [hid]; exact hle1, ?_⟩
          intro q1 hq1 hc
          exact hfresh1 q1 hq1 (hc.trans haddr)
      · refine Or.inr ⟨le_trans upsertPodDb_nextId hle, ?_⟩
        intro q0 hq0 hc
        by_cases h0 : q0.address = p.address
        · obtain ⟨q1, hq1, hq1a⟩ := @upsertPodDb_exists db p
          exact hfresh q1 hq1 (hq1a.trans (h0.symm.trans hc))
        · exact hfresh q0 (upsertPodDb_mem_of_ne hq0 h0) hc

/-! ### Lemmas about `deleteStale` and list filters -/

/-- Filtering twice collapses to one filter when the outer predicate implies
the inner one on the list's members. -/
theorem filter_subpred {α : Type} (l : List α) (pr q : α → Bool)
    (h : ∀ x ∈ l, q x = true → pr x = true) :
    (l.filter pr).filter q = l.filter q := by
  induction l with
  | nil => rfl
  | cons x xs ih =>
    have ih2 := ih (fun y hy => h y (List.mem_cons_of_mem x hy))
    by_cases hq : q x = true
    · have hp := h x (List.mem_cons_self x xs) hq
      rw [List.filter_cons_of_pos hp, List.filter_cons_of_pos hq,
        List.filter_cons_of_pos hq, ih2]
    · have hq2 : q x = false := by revert hq; cases q x <;> simp
      by_cases hp : pr x = true
      · rw [List.filter_cons_of_pos hp, List.filter_cons_of_neg (by simp [hq2]),
          List.filter_cons_of_neg (by simp [hq2]), ih2]
      · have hp2 : pr x = false := by revert hp; cases pr x <;> simp
        rw [List.filter_cons_of_neg (by simp [hp2]),
          List.filter_cons_of_neg (by simp [hq2]), ih2]

/-- The deletion pass only removes stored pods. -/
theorem deleteStale_pods_sub {db : Db} {L : List Pod} {q : DbPod}
    (hq : q ∈ (deleteStale db L).pods) : q ∈ db.pods := by
  unfold deleteStale at hq
  exact (List.mem_filter.mp hq).1

/-- A stored pod whose address is reported this cycle survives the deletion
pass (ids are unique, so the id-based `deleteMany` removes exactly the stale
pods). -/
theorem mem_deleteStale_of_live {db : Db} {L : List Pod} {q : DbPod}
    (hid : (db.pods.map (fun p => p.id)).Nodup) (hq : q ∈ db.pods)
    (hlive : q.address ∈ L.map (fun p => p.address)) :
    q ∈ (deleteStale db L).pods := by
  unfold deleteStale
  refine List.mem_filter.mpr ⟨hq, ?_⟩
  simp only [Bool.not_eq_eq_eq_not, Bool.not_true]
  refine (Bool.not_eq_true _).mp ?_
  intro hc
  have hx := List.elem_iff.mp hc
  obtain ⟨r, hr, hrid⟩ := List.mem_map.mp hx
  have hrdb : r ∈ db.pods := (List.mem_filter.mp hr).1
  have hrq : r = q := List.inj_on_of_nodup_map hid hrdb hq hrid
  have hstale := (List.mem_filter.mp hr).2
  rw [hrq] at hstale
  simp only [Bool.not_eq_eq_eq_not, Bool.not_true] at hstale
  simp at hstale
  obtain ⟨pl, hpl, hpla⟩ := List.mem_map.mp hlive
  exact hstale pl hpl hpla

/-- For a stored pod that stays live, the deletion pass keeps its metric rows
untouched. -/
theorem deleteStale_metrics_filter {db : Db} {L : List Pod} {q : DbPod}
    (hid : (db.pods.map (fun p => p.id)).Nodup) (hq : q ∈ db.pods)
    (hlive : q.address ∈ L.map (fun p => p.address)) :
    (deleteStale db L).metrics.filter (fun m => m.podId = q.id) =
      db.metrics.filter (fun m => m.podId = q.id) := by
  unfold deleteStale
  refine filter_subpred db.metrics _ _ ?_
  intro m _ hm
  have hmq : m.podId = q.id := by simpa using hm
  simp only [Bool.not_eq_eq_eq_not, Bool.not_true]
  refine (Bool.not_eq_true _).mp ?_
  intro hc
  rw [hmq] at hc
  have hx := List.elem_iff.mp hc
  obtain ⟨r, hr, hrid⟩ := List.mem_map.mp hx
  have hrdb : r ∈ db.pods := (List.mem_filter.mp hr).1
  have hrq : r = q := List.inj_on_of_nodup_map hid hrdb hq hrid
  have hstale := (List.mem_filter.mp hr).2
  rw [hrq] at hstale
  simp only [Bool.not_eq_eq_eq_not, Bool.not_true] at hstale
  simp at hstale
  obtain ⟨pl, hpl, hpla⟩ := List.mem_map.mp hlive
  exact hstale pl hpl hpla

/-- The deletion pass keeps the `pods` table schema-clean. -/
theorem deleteStale_podsOk {db : Db} {L : List Pod} (h : PodsOk db) :
    PodsOk (deleteStale db L) := by
  obtain ⟨hid, haddr, hbound, hnext⟩ := h
  have hsub : (deleteStale db L).pods.Sublist db.pods := by
    unfold deleteStale
    exact List.filter_sublist db.pods
  refine ⟨?_, ?_, ?_, hnext⟩
  · exact (hsub.map (fun p => p.id)).nodup hid
  · exact (hsub.map (fun p => p.address)).nodup haddr
  · intro q hq
    exact hbound q (deleteStale_pods_sub hq)

/-- Metric rows surviving the deletion pass were stored before. -/
theorem deleteStale_metrics_sub {db : Db} {L : List Pod} {m : DbMetric}
    (hm : m ∈ (deleteStale db L).metrics) : m ∈ db.metrics := by
  unfold deleteStale at hm
  exact (List.mem_filter.mp hm).1

/-! ### Lemmas about `latestMetric` -/

/-- The running maximum of the `latestMetric` fold is one of the folded
rows (or the seed). -/
theorem latestMetric_foldl_mem :
    ∀ (l : List DbMetric) (acc : Option DbMetric) (a : DbMetric),
      l.foldl (fun acc m =>
        match acc with
        | none => some m
        | some a => if a.timestamp ≤ m.timestamp then some m else some a)
        acc = some a →
      acc = some a ∨ a ∈ l
  | [], _, a, h => Or.inl h
  | m :: l, acc, a, h => by
    rcases latestMetric_foldl_mem l _ a h with hstep | hmem
    · cases hacc : acc with
      | none =>
        rw [hacc] at hstep
        have : m = a := by simpa using hstep
        exact Or.inr (this ▸ List.mem_cons_self m l)
      | some b =>
        rw [hacc] at hstep
        dsimp only at hstep
        by_cases hts : b.timestamp ≤ m.timestamp
        · rw [if_pos hts] at hstep
          have : m = a := by simpa using hstep
          exact Or.inr (this ▸ List.mem_cons_self m l)
        · rw [if_neg hts] at hstep
          have : b = a := by simpa using hstep
          exact Or.inl (this ▸ rfl)
    · exact Or.inr (List.mem_cons_of_mem m hmem)

/-- Appending a row for the requested pod whose timestamp is at least every
stored row's makes it the latest (ties go to the newest insertion). -/
theorem latestMetric_append_last {l : List DbMetric} {r : DbMetric}
    {pid : Nat} (hr : r.podId = pid)
    (hts : ∀ m ∈ l, m.podId = pid → m.timestamp ≤ r.timestamp) :
    latestMetric (l ++ [r]) pid = some r := by
  unfold latestMetric
  rw [List.filter_append, List.filter_cons_of_pos (by simpa using hr),
    List.filter_nil, List.foldl_append]
  cases hacc : (l.filter (fun m => m.podId = pid)).foldl (fun acc m =>
      match acc with
      | none => some m
      | some a => if a.timestamp ≤ m.timestamp then some m else some a)
      none with
  | none => rfl
  | some a =>
    rcases latestMetric_foldl_mem _ _ _ hacc with h | h
    · cases h
    · have hmem := List.mem_filter.mp h
      have hle : a.timestamp ≤ r.timestamp :=
        hts a hmem.1 (by simpa using hmem.2)
      show (if a.timestamp ≤ r.timestamp then some r else some a) = some r
      rw [if_pos hle]

/-- `latestMetric` only depends on the rows of the requested pod. -/
theorem latestMetric_congr {l1 l2 : List DbMetric} {pid : Nat}
    (h : l1.filter (fun m => m.podId = pid) =
      l2.filter (fun m => m.podId = pid)) :
    latestMetric l1 pid = latestMetric l2 pid := by
  unfold latestMetric
  rw [h]

/-- The `latestMetric` value determined by a computed filter: when the rows
of the requested pod are a prefix of older rows followed by one newest row,
that newest row is selected. -/
theorem latestMetric_eq_of_filter {l : List DbMetric} {pid : Nat}
    {pre : List DbMetric} {r : DbMetric}
    (h : l.filter (fun m => m.podId = pid) = pre ++ [r])
    (hts : ∀ m ∈ pre, m.timestamp ≤ r.timestamp) :
    latestMetric l pid = some r := by
  unfold latestMetric
  rw [h, List.foldl_append]
  cases hacc : pre.foldl (fun acc m =>
      match acc with
      | none => some m
      | some a => if a.timestamp ≤ m.timestamp then some m else some a)
      none with
  | none => rfl
  | some a =>
    rcases latestMetric_foldl_mem _ _ _ hacc with hs | hs
    · cases hs
    · have hle : a.timestamp ≤ r.timestamp := hts a hs
      show (if a.timestamp ≤ r.timestamp then some r else some a) = some r
      rw [if_pos hle]

/-! ### Change-detection helper lemmas -/

/-- Unchanged metadata means a stored pod exists with matching metadata. -/
theorem metadataChanged_false_elim {db : Db} {p : Pod}
    (h : metadataChanged db p = false) :
    ∃ dbp, mapFind db.pods p.address = some dbp ∧ metaEq dbp p := by
  unfold metadataChanged at h
  cases hf : mapFind db.pods p.address with
  | none => rw [hf] at h; cases h
  | some dbp =>
    rw [hf] at h
    dsimp only at h
    simp only [Bool.or_eq_false_iff, decide_eq_false_iff_not, not_not] at h
    exact ⟨dbp, rfl, h.1.1, h.1.2, h.2⟩

/-- Unchanged metrics means a stored pod and a latest snapshot exist whose
four compared fields all match the live report. -/
theorem metricsChanged_false_elim {db : Db} {p : Pod}
    (h : metricsChanged db p = false) :
    ∃ dbp m, mapFind db.pods p.address = some dbp ∧
      latestMetric db.metrics dbp.id = some m ∧
      optIntStr m.storageUsed = optIntStr p.storage_used ∧
      optIntStr m.storageCommitted = optIntStr p.storage_committed ∧
      decimalNumNe m.storageUsagePercent p.storage_usage_percent = false ∧
      m.uptime = p.uptime := by
  unfold metricsChanged at h
  cases hf : mapFind db.pods p.address with
  | none => rw [hf] at h; cases h
  | some dbp =>
    rw [hf] at h
    dsimp only at h
    cases hl : latestMetric db.metrics dbp.id with
    | none => rw [hl] at h; cases h
    | some m =>
      rw [hl] at h
      simp only [Bool.or_eq_false_iff, decide_eq_false_iff_not, not_not] at h
      exact ⟨dbp, m, rfl, hl, h.1.1.1, h.1.1.2, h.1.2, h.2⟩

/-- A stored pod with matching metadata makes `metadataChanged` false. -/
theorem metadataChanged_eq_false {db2 : Db} {p : Pod} {dbq : DbPod}
    (hfind : mapFind db2.pods p.address = some dbq) (hmeta : metaEq dbq p) :
    metadataChanged db2 p = false := by
  unfold metadataChanged
  rw [hfind]
  simp [hmeta.1, hmeta.2.1, hmeta.2.2]

/-- A latest snapshot matching the live report in all four compared fields
makes `metricsChanged` false. -/
theorem metricsChanged_eq_false {db2 : Db} {p : Pod} {dbq : DbPod}
    {m : DbMetric} (hfind : mapFind db2.pods p.address = some dbq)
    (hlat : latestMetric db2.metrics dbq.id = some m)
    (h1 : optIntStr m.storageUsed = optIntStr p.storage_used)
    (h2 : optIntStr m.storageCommitted = optIntStr p.storage_committed)
    (h3 : decimalNumNe m.storageUsagePercent p.storage_usage_percent = false)
    (h4 : m.uptime = p.uptime) :
    metricsChanged db2 p = false := by
  unfold metricsChanged
  rw [hfind]
  dsimp only
  rw [hlat]
  simp [h1, h2, h3, h4]

/-! ### Address-level lemmas about the upsert loop -/

/-- Upserts never remove an address from the table. -/
theorem applyUpserts_exists_preserved (fail : String → Bool) :
    ∀ (l : List Pod) (db : Db) (a : String),
      (∃ q ∈ db.pods, q.address = a) →
      ∃ q ∈ (applyUpserts fail db l).1.pods, q.address = a
  | [], _, _, h => h
  | p :: rest, db, a, h => by
    unfold applyUpserts
    by_cases hf : fail p.address
    · simp only [hf, if_pos]
      exact applyUpserts_exists_preserved fail rest db a h
    · simp only [hf, Bool.false_eq_true, if_neg, not_false_iff]
      refine applyUpserts_exists_preserved fail rest _ a ?_
      obtain ⟨q, hq, hqa⟩ := h
      by_cases ha : a = p.address
      · obtain ⟨r, hr, hra⟩ := @upsertPodDb_exists db p
        exact ⟨r, hr, hra.trans ha.symm⟩
      · exact ⟨q, upsertPodDb_mem_of_ne hq (fun hc => ha (hqa ▸ hc)), hqa⟩

/-- A pod upserted without failure ends up stored under its address. -/
theorem applyUpserts_exists_final (fail : String → Bool) :
    ∀ (l : List Pod) (db : Db) (p : Pod), p ∈ l → fail p.address = false →
      ∃ q ∈ (applyUpserts fail db l).1.pods, q.address = p.address
  | [], _, p, hp, _ => absurd hp (List.not_mem_nil p)
  | x :: rest, db, p, hp, hnf => by
    rcases List.mem_cons.mp hp with hx | hx
    · subst hx
      unfold applyUpserts
      rw [hnf]
      simp only [Bool.false_eq_true, if_neg, not_false_iff]
      exact applyUpserts_exists_preserved fail rest _ p.address
        upsertPodDb_exists
    · unfold applyUpserts
      by_cases hf : fail x.address
      · simp only [hf, if_pos]
        exact applyUpserts_exists_final fail rest db p hx hnf
      · simp only [hf, Bool.false_eq_true, if_neg, not_false_iff]
        exact applyUpserts_exists_final fail rest _ p hx hnf

/-- After upserting a pod (with unique addresses in the upsert list and no
failure for it), every stored pod carrying its address carries its
metadata. -/
theorem applyUpserts_matches_final (fail : String → Bool) :
    ∀ (l : List Pod) (db : Db) (p : Pod) (q : DbPod), p ∈ l →
      (l.map (fun r => r.address)).Nodup → fail p.address = false →
      q ∈ (applyUpserts fail db l).1.pods → q.address = p.address →
      metaEq q p
  | [], _, p, _, hp, _, _, _, _ => absurd hp (List.not_mem_nil p)
  | x :: rest, db, p, q, hp, hnd, hnf, hq, hqa => by
    rw [List.map_cons] at hnd
    have hnd2 := List.nodup_cons.mp hnd
    rcases List.mem_cons.mp hp with hx | hx
    · subst hx
      unfold applyUpserts at hq
      rw [hnf] at hq
      simp only [Bool.false_eq_true, if_neg, not_false_iff] at hq
      have hrest : ∀ r ∈ rest, r.address ≠ q.address := by
        intro r hr hc
        apply hnd2.1
        rw [← hqa, ← hc]
        exact List.mem_map_of_mem (fun s => s.address) hr
      exact upsertPodDb_matches
        (applyUpserts_mem_imp fail rest _ q hq hrest) hqa
    · have hxp : x.address ≠ p.address := by
        intro hc
        exact hnd2.1 (hc ▸ List.mem_map_of_mem (fun s => s.address) hx)
      unfold applyUpserts at hq
      by_cases hf : fail x.address
      · simp only [hf, if_pos] at hq
        exact applyUpserts_matches_final fail rest db p q hx hnd2.2 hnf hq hqa
      · simp only [hf, Bool.false_eq_true, if_neg, not_false_iff] at hq
        exact applyUpserts_matches_final fail rest _ p q hx hnd2.2 hnf hq hqa

/-- Every stored address after the upsert loop was stored before or belongs
to one of the upserted pods. -/
theorem upsertPodDb_addr_sub {db : Db} {p : Pod} {q : DbPod}
    (hq : q ∈ (upsertPodDb db p).pods) :
    q ∈ db.pods ∨ q.address = p.address := by
  unfold upsertPodDb at hq
  split at hq
  · obtain ⟨q0, hq0, hval⟩ := List.mem_map.mp hq
    by_cases h0 : q0.address = p.address
    · rw [if_pos h0] at hval
      subst hval
      exact Or.inr h0
    · rw [if_neg h0] at hval
      subst hval
      exact Or.inl hq0
  · rcases List.mem_append.mp hq with h | h
    · exact Or.inl h
    · simp only [List.mem_singleton] at h
      subst h
      exact Or.inr rfl

/-- Address-level upper bound for the upsert loop. -/
theorem applyUpserts_addr_sub (fail : String → Bool) :
    ∀ (l : List Pod) (db : Db) (q : DbPod),
      q ∈ (applyUpserts fail db l).1.pods →
      q ∈ db.pods ∨ q.address ∈ l.map (fun p => p.address)
  | [], _, _, hq => Or.inl hq
  | p :: rest, db, q, hq => by
    unfold applyUpserts at hq
    by_cases hf : fail p.address
    · simp only [hf, if_pos] at hq
      rcases applyUpserts_addr_sub fail rest db q hq with h | h
      · exact Or.inl h
      · exact Or.inr (List.mem_cons_of_mem _ h)
    · simp only [hf, Bool.false_eq_true, if_neg, not_false_iff] at hq
      rcases applyUpserts_addr_sub fail rest _ q hq with h | h
      · rcases upsertPodDb_addr_sub h with h2 | h2
        · exact Or.inl h2
        · exact Or.inr (by rw [List.map_cons, h2]; exact List.mem_cons_self _ _)
      · exact Or.inr (List.mem_cons_of_mem _ h)

/-- A pod surviving the deletion pass is reported live this cycle. -/
theorem deleteStale_live {db : Db} {L : List Pod} {q : DbPod}
    (hq : q ∈ (deleteStale db L).pods) :
    q.address ∈ L.map (fun p => p.address) := by
  unfold deleteStale at hq
  have h1 := (List.mem_filter.mp hq).1
  have h2 := (List.mem_filter.mp hq).2
  by_contra hc
  have hqd : q ∈ podsToDeleteOf db L := by
    refine List.mem_filter.mpr ⟨h1, ?_⟩
    simpa using hc
  have hmem : q.id ∈ (podsToDeleteOf db L).map (fun p => p.id) :=
    List.mem_map_of_mem (fun p => p.id) hqd
  simp only [Bool.not_eq_eq_eq_not, Bool.not_true] at h2
  simp at h2
  obtain ⟨r, hr, hrid⟩ := List.mem_map.mp hmem
  exact h2 r hr hrid

/-! ### Lemmas about `filterMap` rows -/

/-- When every produced value fails the predicate, the filtered `filterMap`
is empty. -/
theorem filter_filterMap_nil {α β : Type} (l : List α) (f : α → Option β)
    (pred : β → Bool)
    (h : ∀ x ∈ l, ∀ r, f x = some r → pred r = false) :
    (l.filterMap f).filter pred = [] := by
  induction l with
  | nil => rfl
  | cons x xs ih =>
    have ih2 := ih (fun y hy => h y (List.mem_cons_of_mem x hy))
    rw [List.filterMap_cons]
    cases hf : f x with
    | none => exact ih2
    | some r =>
      have hp := h x (List.mem_cons_self x xs) r hf
      rw [List.filter_cons_of_neg (by simp [hp]), ih2]

/-- When exactly one listed element produces a value satisfying the
predicate, filtering the `filterMap` leaves exactly that value. -/
theorem filter_filterMap_single {α β : Type} [DecidableEq α] (l : List α)
    (f : α → Option β) (pred : β → Bool) (p : α) (row : β) (hl : l.Nodup)
    (hp : p ∈ l) (hf : f p = some row) (hpred : pred row = true)
    (hothers : ∀ x ∈ l, x ≠ p → ∀ r, f x = some r → pred r = false) :
    (l.filterMap f).filter pred = [row] := by
  induction l with
  | nil => cases hp
  | cons x xs ih =>
    have hnd := List.nodup_cons.mp hl
    rcases List.mem_cons.mp hp with hx | hx
    · subst hx
      have hnil : (xs.filterMap f).filter pred = [] := by
        refine filter_filterMap_nil xs f pred ?_
        intro y hy r hr
        exact hothers y (List.mem_cons_of_mem p hy)
          (fun hc => hnd.1 (hc ▸ hy)) r hr
      rw [List.filterMap_cons, hf, List.filter_cons_of_pos hpred, hnil]
    · have hxp : x ≠ p := fun hc => hnd.1 (hc ▸ hx)
      have ih2 := ih hnd.2 hx
        (fun y hy hyne r hr =>
          hothers y (List.mem_cons_of_mem x hy) hyne r hr)
      rw [List.filterMap_cons]
      cases hfx : f x with
      | none => exact ih2
      | some r =>
        have hpr := hothers x (List.mem_cons_self x xs) hxp r hfx
        rw [List.filter_cons_of_neg (by simp [hpr]), ih2]

/-! ### The pod stored at a live address after the upsert phase -/

/-- After the deletion pass and the upsert loop, every live pod has exactly
one stored row under its address; that row carries the live metadata, a
positive id, the id of the previously stored pod of that address when there
was one, and a fresh id otherwise. -/
theorem reconcile_db2_pod (db : Db) (fail : String → Bool) (L : List Pod)
    (hWF : db.WF) (hL : (L.map (fun p => p.address)).Nodup)
    (hNF : ∀ s, fail s = false) {p : Pod} (hp : p ∈ L) :
    ∃ dbq,
      mapFind (applyUpserts fail (deleteStale db L)
        (podsToUpsertOf db L)).1.pods p.address = some dbq ∧
      metaEq dbq p ∧ 1 ≤ dbq.id ∧
      (∀ dbp, mapFind db.pods p.address = some dbp → dbq.id = dbp.id) ∧
      (mapFind db.pods p.address = none → db.nextId ≤ dbq.id) := by
  have hPO : PodsOk db := ⟨hWF.1, hWF.2.1, hWF.2.2.2.1, hWF.2.2.2.2⟩
  have hPO1 : PodsOk (deleteStale db L) := deleteStale_podsOk hPO
  have hPO2 : PodsOk (applyUpserts fail (deleteStale db L)
      (podsToUpsertOf db L)).1 := applyUpserts_podsOk fail _ _ hPO1
  have hndUp : ((podsToUpsertOf db L).map (fun r => r.address)).Nodup := by
    unfold podsToUpsertOf
    exact ((List.filter_sublist L).map (fun r => r.address)).nodup hL
  have hpaddr : p.address ∈ L.map (fun r => r.address) :=
    List.mem_map_of_mem (fun r => r.address) hp
  have hex : ∃ q, q ∈ (applyUpserts fail (deleteStale db L)
      (podsToUpsertOf db L)).1.pods ∧ q.address = p.address ∧ metaEq q p := by
    by_cases hmd : metadataChanged db p = true
    · have hpup : p ∈ podsToUpsertOf db L :=
        List.mem_filter.mpr ⟨hp, by simp [hmd]⟩
      obtain ⟨q, hq, hqa⟩ :=
        applyUpserts_exists_final fail (podsToUpsertOf db L) _ p hpup
          (hNF p.address)
      exact ⟨q, hq, hqa,
        applyUpserts_matches_final fail (podsToUpsertOf db L) _ p q hpup
          hndUp (hNF p.address) hq hqa⟩
    · have hmd2 : metadataChanged db p = false := by
        revert hmd; cases metadataChanged db p <;> simp
      obtain ⟨dbp, hf, hmeta⟩ := metadataChanged_false_elim hmd2
      obtain ⟨hdbpmem, hdbpaddr⟩ := mapFind_eq_some_imp hf
      have hdbp1 : dbp ∈ (deleteStale db L).pods :=
        mem_deleteStale_of_live hWF.1 hdbpmem (by rw [hdbpaddr]; exact hpaddr)
      have hnotouch : ∀ r ∈ podsToUpsertOf db L, r.address ≠ dbp.address := by
        intro r hr hc
        have hrL := (List.mem_filter.mp hr).1
        have hrmd := (List.mem_filter.mp hr).2
        have hrp : r = p := List.inj_on_of_nodup_map hL hrL hp
          (by rw [hc, hdbpaddr])
        rw [hrp] at hrmd
        rw [hmd2] at hrmd
        cases hrmd
      exact ⟨dbp,
        applyUpserts_mem_of_ne fail (podsToUpsertOf db L) _ dbp hdbp1
          hnotouch, hdbpaddr, hmeta⟩
  obtain ⟨q, hq, hqa, hmeta⟩ := hex
  refine ⟨q, mapFind_unique hPO2.2.1 hq hqa, hmeta,
    (hPO2.2.2.1 q hq).2, ?_, ?_⟩
  · intro dbp hf
    rcases applyUpserts_origin fail _ _ q hq with
      ⟨q0, hq0, hqid, hqaddr⟩ | ⟨hle, hfresh⟩
    · have hq0db : q0 ∈ db.pods := deleteStale_pods_sub hq0
      have hq0a : q0.address = p.address := by rw [← hqaddr, hqa]
      have := mapFind_unique hWF.2.1 hq0db hq0a
      rw [hf] at this
      have hq0dbp : dbp = q0 := Option.some.inj this
      rw [hqid, hq0dbp]
    · obtain ⟨hdbpmem, hdbpaddr⟩ := mapFind_eq_some_imp hf
      have hdbp1 : dbp ∈ (deleteStale db L).pods :=
        mem_deleteStale_of_live hWF.1 hdbpmem (by rw [hdbpaddr]; exact hpaddr)
      exact absurd (by rw [hdbpaddr, ← hqa] : dbp.address = q.address)
        (hfresh dbp hdbp1)
  · intro hf
    rcases applyUpserts_origin fail _ _ q hq with
      ⟨q0, hq0, hqid, hqaddr⟩ | ⟨hle, hfresh⟩
    · have hq0db : q0 ∈ db.pods := deleteStale_pods_sub hq0
      have hq0a : q0.address = p.address := by rw [← hqaddr, hqa]
      exact absurd hq0a (mapFind_eq_none_imp hf q0 hq0db)
    · exact hle

/-- The metric rows the insertion phase produces for a given live pod's id:
exactly the one freshly built row when its metrics changed, nothing
otherwise (rows of other live pods resolve to other ids). -/
theorem metricsData_filter (db : Db) (fail : String → Bool) (L : List Pod)
    (hWF : db.WF) (hL : (L.map (fun p => p.address)).Nodup) {p : Pod}
    (hp : p ∈ L) {dbq : DbPod}
    (hdbq : mapFind (applyUpserts fail (deleteStale db L)
      (podsToUpsertOf db L)).1.pods p.address = some dbq)
    (h1le : 1 ≤ dbq.id) :
    ((metricsToInsertOf db L).filterMap (metricRowFor
        (applyUpserts fail (deleteStale db L)
          (podsToUpsertOf db L)).1.pods)).filter
      (fun m => m.podId = dbq.id) =
      (if metricsChanged db p then
        [{ podId := dbq.id, timestamp := p.last_seen_timestamp * 1000,
           storageUsed := coerceStorage p.storage_used,
           storageCommitted := coerceStorage p.storage_committed,
           storageUsagePercent := p.storage_usage_percent,
           uptime := p.uptime,
           lastSeenTimestamp := p.last_seen_timestamp }]
      else []) := by
  have hPO : PodsOk db := ⟨hWF.1, hWF.2.1, hWF.2.2.2.1, hWF.2.2.2.2⟩
  have hPO2 : PodsOk (applyUpserts fail (deleteStale db L)
      (podsToUpsertOf db L)).1 :=
    applyUpserts_podsOk fail _ _ (deleteStale_podsOk hPO)
  obtain ⟨hdbqmem, hdbqaddr⟩ := mapFind_eq_some_imp hdbq
  have hothers : ∀ x ∈ metricsToInsertOf db L, x ≠ p →
      ∀ r, metricRowFor (applyUpserts fail (deleteStale db L)
        (podsToUpsertOf db L)).1.pods x = some r →
      (decide (r.podId = dbq.id)) = false := by
    intro x hx hxp r hr
    have hxL := (List.mem_filter.mp hx).1
    have hxa : x.address ≠ p.address := by
      intro hc
      exact hxp (List.inj_on_of_nodup_map hL hxL hp hc)
    unfold metricRowFor at hr
    cases hfx : mapFind (applyUpserts fail (deleteStale db L)
        (podsToUpsertOf db L)).1.pods x.address with
    | none => rw [hfx] at hr; cases hr
    | some qx =>
      rw [hfx] at hr
      dsimp only at hr
      by_cases hq0 : qx.id = 0
      · rw [if_pos hq0] at hr; cases hr
      · rw [if_neg hq0] at hr
        have hrq : r.podId = qx.id := by rw [← Option.some.inj hr]
        obtain ⟨hqxmem, hqxaddr⟩ := mapFind_eq_some_imp hfx
        refine decide_eq_false ?_
        intro hc
        have hqe : qx = dbq := List.inj_on_of_nodup_map hPO2.1 hqxmem hdbqmem
          (by rw [← hrq, hc])
        exact hxa (by rw [← hqxaddr, hqe, hdbqaddr])
  by_cases hmc : metricsChanged db p = true
  · rw [if_pos hmc]
    have hpmem : p ∈ metricsToInsertOf db L :=
      List.mem_filter.mpr ⟨hp, by simp [hmc]⟩
    have hnd : (metricsToInsertOf db L).Nodup :=
      (List.Nodup.of_map (fun r => r.address) hL).filter _
    have hfp : metricRowFor (applyUpserts fail (deleteStale db L)
        (podsToUpsertOf db L)).1.pods p = some
        { podId := dbq.id, timestamp := p.last_seen_timestamp * 1000,
          storageUsed := coerceStorage p.storage_used,
          storageCommitted := coerceStorage p.storage_committed,
          storageUsagePercent := p.storage_usage_percent,
          uptime := p.uptime,
          lastSeenTimestamp := p.last_seen_timestamp } := by
      unfold metricRowFor
      rw [hdbq]
      dsimp only
      rw [if_neg (by omega)]
    exact filter_filterMap_single _ _ _ p _ hnd hpmem hfp (by simp) hothers
  · have hmc2 : metricsChanged db p = false := by
      revert hmc; cases metricsChanged db p <;> simp
    rw [if_neg (by simp [hmc2])]
    refine filter_filterMap_nil _ _ _ ?_
    intro x hx r hr
    refine hothers x hx ?_ r hr
    intro hc
    rw [hc] at hx
    have := (List.mem_filter.mp hx).2
    rw [hmc2] at this
    cases this

/-- The pieces of the final state of one reconcile cycle, as list
equations. -/
theorem reconcile_db_metrics (db : Db) (fail : String → Bool) (L : List Pod) :
    (reconcile db fail L).db.metrics =
      (deleteStale db L).metrics ++
      (metricsToInsertOf db L).filterMap (metricRowFor
        (applyUpserts fail (deleteStale db L)
          (podsToUpsertOf db L)).1.pods) := by
  have h : (reconcile db fail L).db.metrics =
      (applyUpserts fail (deleteStale db L) (podsToUpsertOf db L)).1.metrics ++
      (metricsToInsertOf db L).filterMap (metricRowFor
        (applyUpserts fail (deleteStale db L)
          (podsToUpsertOf db L)).1.pods) := rfl
  rw [h, applyUpserts_metrics]

/-- One reconcile cycle leaves every live pod in a state its own report will
classify as unchanged, provided its report carries no zero byte counts
(which the write path would coerce to `null`), a `null`
`storage_usage_percent` (a stored `DECIMAL` never compares strictly equal to
a number), and a reported timestamp at least as new as every stored snapshot
of its pod. -/
theorem reconcile_pod_unchanged (db : Db) (fail : String → Bool) (L : List Pod)
    (hWF : db.WF) (hL : (L.map (fun p => p.address)).Nodup)
    (hNF : ∀ s, fail s = false) {p : Pod} (hp : p ∈ L)
    (hu : p.storage_used ≠ some 0) (hcm : p.storage_committed ≠ some 0)
    (hpct : p.storage_usage_percent = none)
    (hts : ∀ dbp, mapFind db.pods p.address = some dbp →
      ∀ m ∈ db.metrics, m.podId = dbp.id →
        m.timestamp ≤ p.last_seen_timestamp * 1000) :
    metadataChanged (reconcile db fail L).db p = false ∧
    metricsChanged (reconcile db fail L).db p = false := by
  obtain ⟨dbq, hdbq, hmeta, h1le, hidold, hidfresh⟩ :=
    reconcile_db2_pod db fail L hWF hL hNF hp
  have hfind2 : mapFind (reconcile db fail L).db.pods p.address = some dbq := by
    have hpods : (reconcile db fail L).db.pods =
        (applyUpserts fail (deleteStale db L)
          (podsToUpsertOf db L)).1.pods := rfl
    rw [hpods]; exact hdbq
  have hpaddr : p.address ∈ L.map (fun r => r.address) :=
    List.mem_map_of_mem (fun r => r.address) hp
  refine ⟨metadataChanged_eq_false hfind2 hmeta, ?_⟩
  have hfm := metricsData_filter db fail L hWF hL hp hdbq h1le
  by_cases hmc : metricsChanged db p = true
  · -- a fresh row was inserted for this pod and is its latest snapshot
    rw [if_pos hmc] at hfm
    have hboundOld : ∀ m ∈ (deleteStale db L).metrics, m.podId = dbq.id →
        m.timestamp ≤ p.last_seen_timestamp * 1000 := by
      intro m hm hmid
      cases hf : mapFind db.pods p.address with
      | some dbp =>
        exact hts dbp hf m (deleteStale_metrics_sub hm)
          (by rw [hmid, hidold dbp hf])
      | none =>
        obtain ⟨pd, hpd, hpdid⟩ :=
          hWF.2.2.1 m (deleteStale_metrics_sub hm)
        obtain ⟨hb1, _⟩ := hWF.2.2.2.1 pd hpd
        have hge := hidfresh hf
        rw [hmid] at hpdid
        omega
    have hfilter : (reconcile db fail L).db.metrics.filter
        (fun m => m.podId = dbq.id) =
        ((deleteStale db L).metrics.filter (fun m => m.podId = dbq.id)) ++
        [{ podId := dbq.id, timestamp := p.last_seen_timestamp * 1000,
           storageUsed := coerceStorage p.storage_used,
           storageCommitted := coerceStorage p.storage_committed,
           storageUsagePercent := p.storage_usage_percent,
           uptime := p.uptime,
           lastSeenTimestamp := p.last_seen_timestamp }] := by
      rw [reconcile_db_metrics, List.filter_append, hfm]
    have hlat : latestMetric (reconcile db fail L).db.metrics dbq.id =
        some { podId := dbq.id, timestamp := p.last_seen_timestamp * 1000,
               storageUsed := coerceStorage p.storage_used,
               storageCommitted := coerceStorage p.storage_committed,
               storageUsagePercent := p.storage_usage_percent,
               uptime := p.uptime,
               lastSeenTimestamp := p.last_seen_timestamp } := by
      refine latestMetric_eq_of_filter hfilter ?_
      intro m hm
      have hm2 := List.mem_filter.mp hm
      exact hboundOld m hm2.1 (by simpa using hm2.2)
    have hcu : coerceStorage p.storage_used = p.storage_used := by
      cases hv : p.storage_used with
      | none => rfl
      | some v =>
        have hv0 : v ≠ 0 := fun hc => hu (by rw [hv, hc])
        simp [coerceStorage, hv0]
    have hcc : coerceStorage p.storage_committed = p.storage_committed := by
      cases hv : p.storage_committed with
      | none => rfl
      | some v =>
        have hv0 : v ≠ 0 := fun hc => hcm (by rw [hv, hc])
        simp [coerceStorage, hv0]
    refine metricsChanged_eq_false hfind2 hlat ?_ ?_ ?_ rfl
    · show optIntStr (coerceStorage p.storage_used) = optIntStr p.storage_used
      rw [hcu]
    · show optIntStr (coerceStorage p.storage_committed) =
        optIntStr p.storage_committed
      rw [hcc]
    · show decimalNumNe p.storage_usage_percent p.storage_usage_percent = false
      rw [hpct]
      rfl
  · -- nothing was inserted for this pod; its stored latest snapshot stands
    have hmc2 : metricsChanged db p = false := by
      revert hmc; cases metricsChanged db p <;> simp
    rw [if_neg (by simp [hmc2])] at hfm
    obtain ⟨dbp, m0, hf, hlat0, hc1, hc2, hc3, hc4⟩ :=
      metricsChanged_false_elim hmc2
    have hqid : dbq.id = dbp.id := hidold dbp hf
    obtain ⟨hdbpmem, hdbpaddr⟩ := mapFind_eq_some_imp hf
    have hfilter : (reconcile db fail L).db.metrics.filter
        (fun m => m.podId = dbq.id) =
        db.metrics.filter (fun m => m.podId = dbq.id) := by
      rw [reconcile_db_metrics, List.filter_append, hfm, List.append_nil,
        hqid]
      exact deleteStale_metrics_filter hWF.1 hdbpmem
        (by rw [hdbpaddr]; exact hpaddr)
    have hlat : latestMetric (reconcile db fail L).db.metrics dbq.id =
        some m0 := by
      rw [latestMetric_congr hfilter, hqid]
      exact hlat0
    exact metricsChanged_eq_false hfind2 hlat hc1 hc2 hc3 hc4

/-- C10: every metric row a reconcile cycle appends comes from a
metrics-changed live pod, with `storage_used`/`storage_committed` put through
the JS-truthiness conversion: a reported 0 is persisted as `null`, any
nonzero value as itself, so no inserted row ever stores a 0 byte count; and
the final metrics table is exactly the surviving old rows followed by these
inserted rows. -/
theorem metricsInserted_zero_coerced (db : Db) (upsertFail : String → Bool)
    (L : List Pod) :
    (∃ kept, kept.Sublist db.metrics ∧
      (reconcile db upsertFail L).db.metrics =
        kept ++ (reconcile db upsertFail L).metricsInserted) ∧
    ∀ m ∈ (reconcile db upsertFail L).metricsInserted, ∃ p ∈ L,
      metricsChanged db p = true ∧
      m.storageUsed = coerceStorage p.storage_used ∧
      m.storageCommitted = coerceStorage p.storage_committed ∧
      (p.storage_used = some 0 → m.storageUsed = none) ∧
      (p.storage_committed = some 0 → m.storageCommitted = none) ∧
      (∀ v : Int, v ≠ 0 → p.storage_used = some v → m.storageUsed = some v) ∧
      (∀ v : Int, v ≠ 0 → p.storage_committed = some v →
        m.storageCommitted = some v) ∧
      m.storageUsed ≠ some 0 ∧ m.storageCommitted ≠ some 0 := by
  constructor
  · refine ⟨(deleteStale db L).metrics, ?_, ?_⟩
    · exact List.filter_sublist db.metrics
    · have hsplit : (reconcile db upsertFail L).db.metrics =
          (applyUpserts upsertFail (deleteStale db L)
            (podsToUpsertOf db L)).1.metrics ++
          (reconcile db upsertFail L).metricsInserted := rfl
      rw [hsplit, applyUpserts_metrics]
  · intro m hm
    have hm2 : ∃ p ∈ metricsToInsertOf db L,
        metricRowFor (applyUpserts upsertFail (deleteStale db L)
          (podsToUpsertOf db L)).1.pods p = some m := by
      exact List.mem_filterMap.mp hm
    obtain ⟨p, hpmem, hrow⟩ := hm2
    have hpL : p ∈ L ∧ metricsChanged db p = true :=
      List.mem_filter.mp hpmem
    refine ⟨p, hpL.1, hpL.2, ?_⟩
    unfold metricRowFor at hrow
    cases hfind : mapFind (applyUpserts upsertFail (deleteStale db L)
        (podsToUpsertOf db L)).1.pods p.address with
    | none => rw [hfind] at hrow; exact absurd hrow (by simp)
    | some q =>
      rw [hfind] at hrow
      dsimp only at hrow
      by_cases hq : q.id = 0
      · rw [if_pos hq] at hrow; exact absurd hrow (by simp)
      · rw [if_neg hq] at hrow
        have hmeq := Option.some.inj hrow
        subst hmeq
        refine ⟨rfl, rfl, ?_, ?_, ?_, ?_, ?_, ?_⟩
        · intro h; rw [h]; rfl
        · intro h; rw [h]; rfl
        · intro v hv h; rw [h]; simp [coerceStorage, hv]
        · intro v hv h; rw [h]; simp [coerceStorage, hv]
        · exact coerceStorage_ne_zero p.storage_used
        · exact coerceStorage_ne_zero p.storage_committed

/-- Witness for C10: the row inserted for a pod reporting `storage_used = 0`
carries `storageUsed = null`. -/
theorem metricsInserted_zero_coerced_witness :
    ∃ p ∈ [podZero], metricsChanged dbEmpty p = true ∧
      rowZero.storageUsed = coerceStorage p.storage_used ∧
      rowZero.storageCommitted = coerceStorage p.storage_committed ∧
      (p.storage_used = some 0 → rowZero.storageUsed = none) ∧
      (p.storage_committed = some 0 → rowZero.storageCommitted = none) ∧
      (∀ v : Int, v ≠ 0 → p.storage_used = some v →
        rowZero.storageUsed = some v) ∧
      (∀ v : Int, v ≠ 0 → p.storage_committed = some v →
        rowZero.storageCommitted = some v) ∧
      rowZero.storageUsed ≠ some 0 ∧ rowZero.storageCommitted ≠ some 0 :=
  (metricsInserted_zero_coerced dbEmpty noFail [podZero]).2 rowZero (by decide)

/-- C3 counterexample: with `dbC3` storing exactly `podB`'s state, reconciling
`[podA, podB]` classifies `podB` as skipped (nothing changed for it) and
`podA` as saved, yet the geolocation pass is invoked with BOTH addresses —
including the skipped `podB`'s — refuting that `processNewIps` receives
exactly the saved nodes' addresses and no skipped node's address. -/
theorem geoInput_contains_skipped_address :
    (metadataChanged dbC3 podB || metricsChanged dbC3 podB) = false ∧
    (reconcile dbC3 noFail [podA, podB]).savedCount = 1 ∧
    (reconcile dbC3 noFail [podA, podB]).geoInput =
      some ["1.2.3.4:9000", "5.6.7.8:9000"] := by
  decide

/-- C3 amended: in every cycle with `savedCount > 0`, the handler invokes
`processNewIps` with the addresses of ALL nodes of the live report — the
saved and the skipped alike (the geolocation pass deduplicates against
already-known IPs itself). -/
theorem snapshotCycle_geo_gets_all_addresses (db : Db)
    (geoStore : List GeoRecord) (env : GeoEnv) (upsertFail : String → Bool)
    (liveNodes : List Pod)
    (h : 0 < (reconcile db upsertFail liveNodes).savedCount) :
    snapshotCycle db geoStore env upsertFail liveNodes =
      (reconcile db upsertFail liveNodes,
        processNewIps env geoStore (liveNodes.map (fun p => p.address))) := by
  have hg : (reconcile db upsertFail liveNodes).geoInput =
      some (liveNodes.map (fun p => p.address)) := by
    have : (reconcile db upsertFail liveNodes).geoInput =
        if 0 < (reconcile db upsertFail liveNodes).savedCount then
          some (liveNodes.map (fun p => p.address))
        else none := rfl
    rw [this, if_pos h]
  simp [snapshotCycle, hg]

/-- Witness for the C3 amended theorem at the `dbC3` cycle. -/
theorem snapshotCycle_geo_gets_all_addresses_witness :
    0 < (reconcile dbC3 noFail [podA, podB]).savedCount ∧
    snapshotCycle dbC3 [] envAllOk noFail [podA, podB] =
      (reconcile dbC3 noFail [podA, podB],
        processNewIps envAllOk [] ([podA, podB].map (fun p => p.address))) :=
  ⟨by decide,
    snapshotCycle_geo_gets_all_addresses dbC3 [] envAllOk noFail [podA, podB]
      (by decide)⟩

/-- C2: the mirror invariant. With unique addresses in the live report and no
per-node write failing, after one reconcile cycle the set of addresses
stored in the pods table equals exactly the set of addresses of the live
report: stale addresses are deleted, unseen live addresses are inserted, and
nothing else is stored. -/
theorem reconcile_mirror (db : Db) (upsertFail : String → Bool) (L : List Pod)
    (hWF : db.WF) (hL : (L.map (fun p => p.address)).Nodup)
    (hNF : ∀ s, upsertFail s = false) :
    ∀ a : String,
      (∃ q ∈ (reconcile db upsertFail L).db.pods, q.address = a) ↔
        ∃ p ∈ L, p.address = a := by
  intro a
  have hpods : (reconcile db upsertFail L).db.pods =
      (applyUpserts upsertFail (deleteStale db L)
        (podsToUpsertOf db L)).1.pods := rfl
  rw [hpods]
  constructor
  · rintro ⟨q, hq, rfl⟩
    rcases applyUpserts_addr_sub upsertFail _ _ q hq with h | h
    · obtain ⟨r, hr, hra⟩ := List.mem_map.mp (deleteStale_live h)
      exact ⟨r, hr, hra⟩
    · obtain ⟨r, hr, hra⟩ := List.mem_map.mp h
      exact ⟨r, (List.mem_filter.mp hr).1, hra⟩
  · rintro ⟨p, hp, rfl⟩
    obtain ⟨dbq, hdbq, _⟩ := reconcile_db2_pod db upsertFail L hWF hL hNF hp
    obtain ⟨hmem, haddr⟩ := mapFind_eq_some_imp hdbq
    exact ⟨dbq, hmem, haddr⟩

/-- Witness for C2 at a concrete cycle (a stored pod kept, a new pod
inserted). -/
theorem reconcile_mirror_witness :
    (∃ q ∈ (reconcile dbC3 noFail [podA, podB]).db.pods,
        q.address = "1.2.3.4:9000") ↔
      ∃ p ∈ [podA, podB], p.address = "1.2.3.4:9000" :=
  reconcile_mirror dbC3 noFail [podA, podB] (by decide) (by decide)
    (fun _ => rfl) "1.2.3.4:9000"

/-- C5: change-detection precision. For a stored node whose metadata matches
its live report and whose latest snapshot matches the report in the byte
storage comparisons but has `uptime` 100 against a live 101, one cycle
classifies the node as saved via `metricsChanged` only: zero metadata
upserts for its address, and exactly one inserted metric row for its pod
id. -/
theorem uptime_change_precision (db : Db) (fail : String → Bool)
    (L : List Pod) (hWF : db.WF) (hL : (L.map (fun p => p.address)).Nodup)
    (hNF : ∀ s, fail s = false) {p : Pod} (hp : p ∈ L) {dbp : DbPod}
    (hf : mapFind db.pods p.address = some dbp) (hmeta : metaEq dbp p)
    {m0 : DbMetric} (hlat : latestMetric db.metrics dbp.id = some m0)
    (_h1 : optIntStr m0.storageUsed = optIntStr p.storage_used)
    (_h2 : optIntStr m0.storageCommitted = optIntStr p.storage_committed)
    (h5 : m0.uptime = some 100) (h6 : p.uptime = some 101) :
    metadataChanged db p = false ∧ metricsChanged db p = true ∧
    (reconcile db fail L).metricsInserted.countP
      (fun m => m.podId = dbp.id) = 1 ∧
    ∀ q ∈ (reconcile db fail L).podsToUpsert, q.address ≠ p.address := by
  have hmd : metadataChanged db p = false := metadataChanged_eq_false hf hmeta
  have hmc : metricsChanged db p = true := by
    unfold metricsChanged
    rw [hf]
    dsimp only
    rw [hlat]
    simp [h5, h6]
  obtain ⟨dbq, hdbq, _, h1le, hidold, _⟩ :=
    reconcile_db2_pod db fail L hWF hL hNF hp
  have hqid : dbq.id = dbp.id := hidold dbp hf
  have hfm := metricsData_filter db fail L hWF hL hp hdbq h1le
  rw [if_pos hmc] at hfm
  refine ⟨hmd, hmc, ?_, ?_⟩
  · have hmi : (reconcile db fail L).metricsInserted =
        (metricsToInsertOf db L).filterMap (metricRowFor
          (applyUpserts fail (deleteStale db L)
            (podsToUpsertOf db L)).1.pods) := rfl
    rw [hmi, ← hqid, List.countP_eq_length_filter, hfm]
    rfl
  · intro q hq hc
    have hqf : q ∈ L ∧ metadataChanged db q = true := by
      have hpu : (reconcile db fail L).podsToUpsert =
          L.filter (fun r => metadataChanged db r) := rfl
      rw [hpu] at hq
      exact List.mem_filter.mp hq
    have hqp : q = p := List.inj_on_of_nodup_map hL hqf.1 hp hc
    rw [hqp, hmd] at hqf
    cases hqf.2

/-- Witness for C5 at the concrete `dbC5` node whose uptime moved from 100
to 101. -/
theorem uptime_change_precision_witness :
    metadataChanged dbC5 podC5live = false ∧
    metricsChanged dbC5 podC5live = true ∧
    (reconcile dbC5 noFail [podC5live]).metricsInserted.countP
      (fun m => m.podId = 3) = 1 ∧
    ∀ q ∈ (reconcile dbC5 noFail [podC5live]).podsToUpsert,
      q.address ≠ podC5live.address :=
  @uptime_change_precision dbC5 noFail [podC5live] (by decide) (by decide)
    (fun _ => rfl) podC5live (List.mem_singleton_self podC5live) dbpC5
    (by decide) (by decide) m0C5 (by decide) (by decide) (by decide)
    (by decide) (by decide)

/-- C1 counterexample: a node reporting `storage_used = 0` is never
classified as skipped. The first cycle persists the 0 as `null`
(JS truthiness); the second cycle compares stored `null` against reported
`0` via `?.toString()` (`undefined` vs `"0"`), judges the metrics changed,
classifies the node saved, and inserts one more snapshot row — refuting
idempotence exactly at the zero value the claim singles out. -/
theorem reconcile_not_idempotent_at_zero :
    (reconcile (reconcile dbEmpty noFail [podZero]).db noFail
      [podZero]).savedCount = 1 ∧
    (reconcile (reconcile dbEmpty noFail [podZero]).db noFail
      [podZero]).skippedCount = 0 ∧
    (reconcile (reconcile dbEmpty noFail [podZero]).db noFail
      [podZero]).metricsInserted.length = 1 := by
  decide

/-- C1 amended: reconcile is idempotent — the second cycle with the same live
list performs zero metric inserts and zero metadata upserts and classifies
every node as skipped — provided every node's reported `storage_used` and
`storage_committed` are not exactly 0 (a 0 is persisted as `null` and then
always compares as changed), every `storage_usage_percent` is `null`
(a stored `DECIMAL` value never compares strictly equal to a JS number), and
no stored snapshot of a node postdates its report. -/
theorem reconcile_idempotent_amended (db : Db) (L : List Pod)
    (hWF : db.WF) (hL : (L.map (fun p => p.address)).Nodup)
    (hstore : ∀ p ∈ L, p.storage_used ≠ some 0 ∧
      p.storage_committed ≠ some 0 ∧ p.storage_usage_percent = none)
    (hts : ∀ p ∈ L, ∀ dbp, mapFind db.pods p.address = some dbp →
      ∀ m ∈ db.metrics, m.podId = dbp.id →
        m.timestamp ≤ p.last_seen_timestamp * 1000) :
    (reconcile (reconcile db noFail L).db noFail L).savedCount = 0 ∧
    (reconcile (reconcile db noFail L).db noFail L).skippedCount = L.length ∧
    (reconcile (reconcile db noFail L).db noFail L).podsToUpsert = [] ∧
    (reconcile (reconcile db noFail L).db noFail L).metricsInserted = [] := by
  have hall : ∀ p ∈ L,
      metadataChanged (reconcile db noFail L).db p = false ∧
      metricsChanged (reconcile db noFail L).db p = false := by
    intro p hp
    exact reconcile_pod_unchanged db noFail L hWF hL (fun _ => rfl) hp
      (hstore p hp).1 (hstore p hp).2.1 (hstore p hp).2.2 (hts p hp)
  have hnil : L.filter (fun p =>
      metadataChanged (reconcile db noFail L).db p ||
      metricsChanged (reconcile db noFail L).db p) = [] := by
    rw [List.filter_eq_nil_iff]
    intro p hp
    simp [(hall p hp).1, (hall p hp).2]
  have hnilmd : L.filter (fun p =>
      metadataChanged (reconcile db noFail L).db p) = [] := by
    rw [List.filter_eq_nil_iff]
    intro p hp
    simp [(hall p hp).1]
  have hnilmc : L.filter (fun p =>
      metricsChanged (reconcile db noFail L).db p) = [] := by
    rw [List.filter_eq_nil_iff]
    intro p hp
    simp [(hall p hp).2]
  refine ⟨?_, ?_, ?_, ?_⟩
  · show (L.filter (fun p =>
        metadataChanged (reconcile db noFail L).db p ||
        metricsChanged (reconcile db noFail L).db p)).length = 0
    rw [hnil]
    rfl
  · show (L.filter (fun p =>
        !(metadataChanged (reconcile db noFail L).db p ||
          metricsChanged (reconcile db noFail L).db p))).length = L.length
    have : L.filter (fun p =>
        !(metadataChanged (reconcile db noFail L).db p ||
          metricsChanged (reconcile db noFail L).db p)) = L := by
      rw [List.filter_eq_self]
      intro p hp
      simp [(hall p hp).1, (hall p hp).2]
    rw [this]
  · show L.filter (fun p =>
        metadataChanged (reconcile db noFail L).db p) = []
    exact hnilmd
  · show (L.filter (fun p =>
        metricsChanged (reconcile db noFail L).db p)).filterMap _ = []
    rw [hnilmc]
    rfl

/-- Witness for the C1 amended theorem: a nonzero-storage node really is
skipped by the second cycle. -/
theorem reconcile_idempotent_amended_witness :
    (reconcile (reconcile dbEmpty noFail [podOne]).db noFail
      [podOne]).savedCount = 0 ∧
    (reconcile (reconcile dbEmpty noFail [podOne]).db noFail
      [podOne]).skippedCount = [podOne].length ∧
    (reconcile (reconcile dbEmpty noFail [podOne]).db noFail
      [podOne]).podsToUpsert = [] ∧
    (reconcile (reconcile dbEmpty noFail [podOne]).db noFail
      [podOne]).metricsInserted = [] :=
  reconcile_idempotent_amended dbEmpty [podOne] (by decide) (by decide)
    (by decide) (fun p hp dbp hf => by simp [mapFind] at hf)

/-! ### Lemmas for the `processNewIps` aggregate counters -/

/-- The row built for a provider result keeps the queried IP as its key. -/
theorem geoRecordOf_ip (r : IpApiResponse) : (geoRecordOf r).ip = r.query := by
  unfold geoRecordOf
  split <;> rfl

/-- Skip-on-conflict insertion of rows with fresh, pairwise-distinct IPs
appends them all. -/
theorem insertSkipDup_append :
    ∀ (values : List GeoRecord) (store : List GeoRecord),
      (values.map (fun v => v.ip)).Nodup →
      (∀ v ∈ values, ∀ g ∈ store, g.ip ≠ v.ip) →
      insertSkipDup store values = store ++ values
  | [], store, _, _ => by simp [insertSkipDup]
  | v :: vs, store, hnd, hdisj => by
    rw [List.map_cons] at hnd
    have hnd2 := List.nodup_cons.mp hnd
    have hnone : store.any (fun r => r.ip = v.ip) = false := by
      refine (Bool.not_eq_true _).mp ?_
      intro hc
      obtain ⟨g, hg, hgip⟩ := List.any_eq_true.mp hc
      exact hdisj v (List.mem_cons_self v vs) g hg (by simpa using hgip)
    have hstep : insertSkipDup store (v :: vs) =
        insertSkipDup (store ++ [v]) vs := by
      unfold insertSkipDup
      rw [List.foldl_cons]
      simp only [hnone]
      rfl
    rw [hstep, insertSkipDup_append vs (store ++ [v]) hnd2.2 ?_]
    · rw [List.append_assoc]
      rfl
    · intro w hw g hg
      rcases List.mem_append.mp hg with h | h
      · exact hdisj w (List.mem_cons_of_mem v hw) g h
      · simp only [List.mem_singleton] at h
        subst h
        intro hc
        exact hnd2.1 (hc ▸ List.mem_map_of_mem (fun u => u.ip) hw)

/-- Storing a non-empty result batch whose IPs are pairwise distinct and all
absent from the store (and with no injected failures) inserts every row and
reports the batch size. -/
theorem storeGeolocation_all_new {store : List GeoRecord}
    {data : List IpApiResponse} (hne : data.isEmpty = false)
    (hnd : (data.map (fun r => r.query)).Nodup)
    (hq : ∀ r ∈ data, ∀ g ∈ store, g.ip ≠ r.query) :
    storeGeolocation false false store data =
      .ok (store ++ data.map geoRecordOf, data.length) := by
  have hnew : data.filter (fun item =>
      !((store.filter (fun r =>
        (data.map (fun item => item.query)).contains r.ip)).map
          (fun r => r.ip)).contains item.query) = data := by
    rw [List.filter_eq_self]
    intro r hr
    simp only [Bool.not_eq_eq_eq_not, Bool.not_true]
    refine (Bool.not_eq_true _).mp ?_
    intro hc
    obtain ⟨g, hg, hgip⟩ := List.mem_map.mp (List.elem_iff.mp hc)
    exact hq r hr g (List.mem_filter.mp hg).1 hgip
  have hmapnd : ((data.map geoRecordOf).map (fun v => v.ip)).Nodup := by
    rw [List.map_map]
    have heq : ((fun v => v.ip) ∘ geoRecordOf) = (fun r => r.query) :=
      funext geoRecordOf_ip
    rw [heq]
    exact hnd
  have hfresh : ∀ v ∈ data.map geoRecordOf, ∀ g ∈ store, g.ip ≠ v.ip := by
    intro w hw g hg
    obtain ⟨r, hr, hval⟩ := List.mem_map.mp hw
    rw [← hval, geoRecordOf_ip]
    exact hq r hr g hg
  have hdnnil : data ≠ [] := by
    intro hc
    rw [hc] at hne
    cases hne
  unfold storeGeolocation
  rw [hne]
  simp only [Bool.false_eq_true, if_false, hnew]
  rw [if_neg (by simp [hdnnil])]
  rw [insertSkipDup_append (data.map geoRecordOf) store hmapnd hfresh]

/-- The `extractUniqueIps` fold keeps its accumulator duplicate-free. -/
theorem extractUniqueIps_go_nodup :
    ∀ (addresses : List String) (acc : List String), acc.Nodup →
      (addresses.foldl (fun acc a =>
        match extractIp a with
        | some ip =>
          if isValidIp ip && !acc.contains ip then acc ++ [ip] else acc
        | none => acc) acc).Nodup
  | [], _, h => h
  | a :: rest, acc, h => by
    rw [List.foldl_cons]
    refine extractUniqueIps_go_nodup rest _ ?_
    cases hip : extractIp a with
    | none => simpa [hip] using h
    | some ip =>
      simp only [hip]
      by_cases hcond : (isValidIp ip && !acc.contains ip) = true
      · rw [if_pos hcond]
        refine List.Nodup.append h (by simp) ?_
        intro x hx hy
        simp only [List.mem_singleton] at hy
        obtain ⟨_, h2⟩ : isValidIp ip = true ∧ (!acc.contains ip) = true := by
          simpa using hcond
        simp only [Bool.not_eq_eq_eq_not, Bool.not_true] at h2
        simp at h2
        rw [hy] at hx
        exact h2 hx
      · rw [if_neg hcond]
        exact h

/-- The extracted candidate IP list is duplicate-free (a JS `Set`). -/
theorem extractUniqueIps_nodup (addresses : List String) :
    (extractUniqueIps addresses).Nodup := by
  unfold extractUniqueIps
  exact extractUniqueIps_go_nodup addresses [] List.nodup_nil

/-- The new-IP filter keeps the candidate list duplicate-free. -/
theorem getNewIps_nodup {f : Bool} {store : List GeoRecord}
    {ips : List String} (h : ips.Nodup) : (getNewIps f store ips).Nodup := by
  unfold getNewIps
  split
  · exact List.nodup_nil
  · split
    · exact List.nodup_nil
    · exact h.filter _

/-- Every IP the existence filter returns is a candidate that has no stored
record. -/
theorem getNewIps_mem {f : Bool} {store : List GeoRecord} {ips : List String}
    {x : String} (hx : x ∈ getNewIps f store ips) :
    x ∈ ips ∧ ∀ g ∈ store, g.ip ≠ x := by
  unfold getNewIps at hx
  split at hx
  · cases hx
  · split at hx
    · cases hx
    · have h1 := List.mem_filter.mp hx
      refine ⟨h1.1, ?_⟩
      intro g hg hc
      have h2 := h1.2
      simp only [Bool.not_eq_eq_eq_not, Bool.not_true] at h2
      simp at h2
      exact h2 g hg (by rw [hc]; exact h1.1) hc

/-- The slicing loop reassembles to the sliced list when given enough
fuel. -/
theorem chunkArrayFuel_flatten :
    ∀ (fuel : Nat) (l : List String) (n : Nat), l.length ≤ fuel →
      (chunkArrayFuel fuel l (n + 1)).flatten = l
  | 0, l, _, h => by
    have hl : l = [] := List.eq_nil_of_length_eq_zero (Nat.le_zero.mp h)
    subst hl
    rfl
  | _ + 1, [], _, _ => rfl
  | fuel + 1, x :: xs, n, h => by
    show ((x :: xs).take (n + 1) ::
      chunkArrayFuel fuel ((x :: xs).drop (n + 1)) (n + 1)).flatten = x :: xs
    rw [List.flatten_cons,
      chunkArrayFuel_flatten fuel _ n
        (by simp only [List.length_drop]; simp at h ⊢; omega)]
    exact List.take_append_drop (n + 1) (x :: xs)

/-- `chunkArray` partitions its input. -/
theorem chunkArray_flatten (l : List String) (n : Nat) (h : n ≠ 0) :
    (chunkArray l n).flatten = l := by
  obtain ⟨m, rfl⟩ := Nat.exists_eq_succ_of_ne_zero h
  exact chunkArrayFuel_flatten l.length l m (Nat.le_refl _)

/-- The chunk loop under no injected store failures, with each chunk's
response answering only for distinct IPs of that chunk, chunks pairwise
disjoint, and no chunk IP stored yet: it succeeds, `storedCount` is the
total size of all fetched responses — all of which are genuinely inserted —
and `batchesProcessed` counts the chunks with a non-empty response. -/
theorem chunkLoop_aggregate (env : GeoEnv)
    (hok : ∀ i, env.checkFail i = false ∧ env.insertFail i = false) :
    ∀ (chunks : List (List String)) (i : Nat) (store : List GeoRecord),
      List.Forall₂ (fun data c =>
        ((data.map (fun r => r.query)).Nodup) ∧
          ∀ r ∈ data, r.query ∈ c)
        (fetchedPerChunk env i chunks) chunks →
      (∀ c ∈ chunks, ∀ ip ∈ c, ∀ g ∈ store, g.ip ≠ ip) →
      chunks.Pairwise List.Disjoint →
      ∃ store2, chunkLoop env i store chunks =
        .ok (store2,
          ((fetchedPerChunk env i chunks).map (fun d => d.length)).sum,
          (fetchedPerChunk env i chunks).countP (fun d => !d.isEmpty)) ∧
        store2.length = store.length +
          ((fetchedPerChunk env i chunks).map (fun d => d.length)).sum
  | [], i, store, _, _, _ => ⟨store, rfl, rfl⟩
  | c :: rest, i, store, hforall, hstore, hpair => by
    have hfc : fetchedPerChunk env i (c :: rest) =
        fetchData (env.fetchOutcomes i) :: fetchedPerChunk env (i + 1) rest :=
      rfl
    rw [hfc] at hforall
    have hhead := (List.forall₂_cons.mp hforall).1
    have htail := (List.forall₂_cons.mp hforall).2
    have hpair2 := List.pairwise_cons.mp hpair
    have hunf : chunkLoop env i store (c :: rest) =
        (if (fetchData (env.fetchOutcomes i)).isEmpty then
          chunkLoop env (i + 1) store rest
        else
          match storeGeolocation (env.checkFail i) (env.insertFail i) store
            (fetchData (env.fetchOutcomes i)) with
          | .error s => .error s
          | .ok sn =>
            match chunkLoop env (i + 1) sn.1 rest with
            | .error s => .error s
            | .ok r => .ok (r.1, sn.2 + r.2.1, 1 + r.2.2)) := rfl
    by_cases hdata : (fetchData (env.fetchOutcomes i)).isEmpty = true
    · have hdnil : fetchData (env.fetchOutcomes i) = [] :=
        List.isEmpty_iff.mp hdata
      obtain ⟨store2, heq, hlen⟩ := chunkLoop_aggregate env hok rest (i + 1)
        store htail
        (fun d hd ip hip g hg => hstore d (List.mem_cons_of_mem c hd) ip hip g hg)
        hpair2.2
      refine ⟨store2, ?_, ?_⟩
      · have hloop : chunkLoop env i store (c :: rest) =
            chunkLoop env (i + 1) store rest := by
          rw [hunf, if_pos hdata]
        rw [hloop, heq, hfc, List.map_cons, List.sum_cons, hdnil,
          List.countP_cons]
        simp only [List.length_nil, List.isEmpty_nil, Bool.not_true,
          Bool.false_eq_true, if_false, Nat.zero_add, Nat.add_zero]
      · rw [hfc, List.map_cons, List.sum_cons, hdnil]
        simpa using hlen
    · have hdne : (fetchData (env.fetchOutcomes i)).isEmpty = false := by
        revert hdata; cases (fetchData (env.fetchOutcomes i)).isEmpty <;> simp
      have hsg : storeGeolocation (env.checkFail i) (env.insertFail i) store
          (fetchData (env.fetchOutcomes i)) =
          .ok (store ++ (fetchData (env.fetchOutcomes i)).map geoRecordOf,
            (fetchData (env.fetchOutcomes i)).length) := by
        rw [(hok i).1, (hok i).2]
        exact storeGeolocation_all_new hdne hhead.1
          (fun r hr g hg =>
            hstore c (List.mem_cons_self c rest) r.query (hhead.2 r hr) g hg)
      have hstore2 : ∀ d ∈ rest, ∀ ip ∈ d,
          ∀ g ∈ store ++ (fetchData (env.fetchOutcomes i)).map geoRecordOf,
          g.ip ≠ ip := by
        intro d hd ip hip g hg
        rcases List.mem_append.mp hg with h | h
        · exact hstore d (List.mem_cons_of_mem c hd) ip hip g h
        · obtain ⟨r, hr, hval⟩ := List.mem_map.mp h
          rw [← hval, geoRecordOf_ip]
          intro hc
          have hrc : r.query ∈ c := hhead.2 r hr
          rw [hc] at hrc
          exact hpair2.1 d hd hrc hip
      obtain ⟨store2, heq, hlen⟩ := chunkLoop_aggregate env hok rest (i + 1)
        (store ++ (fetchData (env.fetchOutcomes i)).map geoRecordOf) htail
        hstore2 hpair2.2
      refine ⟨store2, ?_, ?_⟩
      · have hloop : chunkLoop env i store (c :: rest) =
            match storeGeolocation (env.checkFail i) (env.insertFail i)
              store (fetchData (env.fetchOutcomes i)) with
            | .error s => .error s
            | .ok sn =>
              match chunkLoop env (i + 1) sn.1 rest with
              | .error s => .error s
              | .ok r => .ok (r.1, sn.2 + r.2.1, 1 + r.2.2) := by
          rw [hunf, if_neg (by simp [hdne])]
        rw [hloop, hsg]
        dsimp only
        rw [heq]
        dsimp only
        rw [hfc, List.map_cons, List.sum_cons, List.countP_cons]
        have hc1 : (1 : Nat) + (fetchedPerChunk env (i + 1) rest).countP
            (fun d => !d.isEmpty) =
            (fetchedPerChunk env (i + 1) rest).countP
              (fun d => !d.isEmpty) +
            (if (!(fetchData (env.fetchOutcomes i)).isEmpty) = true
              then 1 else 0) := by
          rw [hdne]
          simp [Nat.add_comm]
        rw [hc1]
      · rw [hfc, List.map_cons, List.sum_cons]
        rw [hlen, List.length_append, List.length_map]
        omega

/-- C4 counterexample: a chunk whose single fetched result is for an IP that
is already stored yields zero stored records, yet `batchesProcessed` is
still incremented (the code counts chunks with a non-empty fetch, not chunks
with at least one stored record), refuting the claim's `batchesProcessed`
clause. -/
theorem batchesProcessed_counts_unstored_chunk :
    (processNewIps geoEnvC4 storeC4 ["1.2.3.4:80"]).1.storedCount = 0 ∧
    (processNewIps geoEnvC4 storeC4 ["1.2.3.4:80"]).1.batchesProcessed = 1 := by
  decide

/-- C4 amended: with no injected store failures and a provider that answers
each chunk with records for (distinct) IPs of that chunk, `processNewIps`
returns `newIpsCount` equal to the size of the new-IP set of the existence
filter, `storedCount` equal to the number of records actually stored (the
final store grows by exactly that many rows), and `batchesProcessed` equal
to the number of chunks whose fetch yielded at least one result record —
the latter also counts a chunk none of whose fetched records gets stored,
which is where the original claim fails. -/
theorem processNewIps_aggregate (env : GeoEnv) (store : List GeoRecord)
    (addresses : List String)
    (hok : ∀ i, env.checkFail i = false ∧ env.insertFail i = false)
    (honest : List.Forall₂ (fun data c =>
        ((data.map (fun r => r.query)).Nodup) ∧ ∀ r ∈ data, r.query ∈ c)
      (fetchedPerChunk env 0 (chunkArray (getNewIps env.findFail store
        (extractUniqueIps addresses)) MAX_IPS_PER_BATCH))
      (chunkArray (getNewIps env.findFail store
        (extractUniqueIps addresses)) MAX_IPS_PER_BATCH)) :
    (processNewIps env store addresses).1 =
      ⟨(getNewIps env.findFail store (extractUniqueIps addresses)).length,
        ((fetchedPerChunk env 0 (chunkArray (getNewIps env.findFail store
          (extractUniqueIps addresses)) MAX_IPS_PER_BATCH)).map
            (fun d => d.length)).sum,
        (fetchedPerChunk env 0 (chunkArray (getNewIps env.findFail store
          (extractUniqueIps addresses)) MAX_IPS_PER_BATCH)).countP
          (fun d => !d.isEmpty)⟩ ∧
    (processNewIps env store addresses).2.length =
      store.length +
        ((fetchedPerChunk env 0 (chunkArray (getNewIps env.findFail store
          (extractUniqueIps addresses)) MAX_IPS_PER_BATCH)).map
            (fun d => d.length)).sum := by
  by_cases hu : (extractUniqueIps addresses).isEmpty = true
  · have hunil : extractUniqueIps addresses = [] := List.isEmpty_iff.mp hu
    have hnil : getNewIps env.findFail store (extractUniqueIps addresses)
        = [] := by
      rw [hunil]
      rfl
    have h1 : processNewIpsBody env store addresses =
        .ok (⟨0, 0, 0⟩, store) := by
      simp only [processNewIpsBody]
      rw [if_pos hu]
    have hres : processNewIps env store addresses = (⟨0, 0, 0⟩, store) := by
      unfold processNewIps
      rw [h1]
    rw [hres, hnil]
    exact ⟨rfl, rfl⟩
  · have hu2 : (extractUniqueIps addresses).isEmpty = false := by
      revert hu; cases (extractUniqueIps addresses).isEmpty <;> simp
    by_cases hn : (getNewIps env.findFail store
        (extractUniqueIps addresses)).isEmpty = true
    · have hnnil : getNewIps env.findFail store (extractUniqueIps addresses)
          = [] := List.isEmpty_iff.mp hn
      have h1 : processNewIpsBody env store addresses =
          .ok (⟨0, 0, 0⟩, store) := by
        simp only [processNewIpsBody]
        rw [if_neg (by simp [hu2]), if_pos hn]
      have hres : processNewIps env store addresses = (⟨0, 0, 0⟩, store) := by
        unfold processNewIps
        rw [h1]
      rw [hres, hnnil]
      exact ⟨rfl, rfl⟩
    · have hn2 : (getNewIps env.findFail store
          (extractUniqueIps addresses)).isEmpty = false := by
        revert hn
        cases (getNewIps env.findFail store
          (extractUniqueIps addresses)).isEmpty <;> simp
      have hnd : (getNewIps env.findFail store
          (extractUniqueIps addresses)).Nodup :=
        getNewIps_nodup (extractUniqueIps_nodup addresses)
      have hflat : (chunkArray (getNewIps env.findFail store
          (extractUniqueIps addresses)) MAX_IPS_PER_BATCH).flatten =
          getNewIps env.findFail store (extractUniqueIps addresses) :=
        chunkArray_flatten _ MAX_IPS_PER_BATCH (by decide)
      have hjnd : (chunkArray (getNewIps env.findFail store
          (extractUniqueIps addresses)) MAX_IPS_PER_BATCH).flatten.Nodup := by
        rw [hflat]
        exact hnd
      have hstoreChunks : ∀ c ∈ chunkArray (getNewIps env.findFail store
          (extractUniqueIps addresses)) MAX_IPS_PER_BATCH, ∀ ip ∈ c,
          ∀ g ∈ store, g.ip ≠ ip := by
        intro c hc ip hip g hg
        have hipnew : ip ∈ getNewIps env.findFail store
            (extractUniqueIps addresses) := by
          rw [← hflat]
          exact List.mem_flatten.mpr ⟨c, hc, hip⟩
        exact (getNewIps_mem hipnew).2 g hg
      obtain ⟨store2, heq, hlen⟩ := chunkLoop_aggregate env hok
        (chunkArray (getNewIps env.findFail store
          (extractUniqueIps addresses)) MAX_IPS_PER_BATCH) 0 store honest
        hstoreChunks (List.nodup_flatten.mp hjnd).2
      have h1 : processNewIpsBody env store addresses =
          .ok (⟨(getNewIps env.findFail store
              (extractUniqueIps addresses)).length,
            ((fetchedPerChunk env 0 (chunkArray (getNewIps env.findFail
              store (extractUniqueIps addresses))
                MAX_IPS_PER_BATCH)).map (fun d => d.length)).sum,
            (fetchedPerChunk env 0 (chunkArray (getNewIps env.findFail
              store (extractUniqueIps addresses))
                MAX_IPS_PER_BATCH)).countP (fun d => !d.isEmpty)⟩,
            store2) := by
        simp only [processNewIpsBody]
        rw [if_neg (by simp [hu2]), if_neg (by simp [hn2]), heq]
      have hres : processNewIps env store addresses =
          (⟨(getNewIps env.findFail store
              (extractUniqueIps addresses)).length,
            ((fetchedPerChunk env 0 (chunkArray (getNewIps env.findFail
              store (extractUniqueIps addresses))
                MAX_IPS_PER_BATCH)).map (fun d => d.length)).sum,
            (fetchedPerChunk env 0 (chunkArray (getNewIps env.findFail
              store (extractUniqueIps addresses))
                MAX_IPS_PER_BATCH)).countP (fun d => !d.isEmpty)⟩,
            store2) := by
        unfold processNewIps
        rw [h1]
      rw [hres]
      exact ⟨rfl, hlen⟩

/-- Witness for the C4 amended theorem at a one-chunk run that stores one
record. -/
theorem processNewIps_aggregate_witness :
    (processNewIps envC4W [] ["8.8.8.8:53"]).1 =
      ⟨(getNewIps envC4W.findFail [] (extractUniqueIps ["8.8.8.8:53"])).length,
        ((fetchedPerChunk envC4W 0 (chunkArray (getNewIps envC4W.findFail []
          (extractUniqueIps ["8.8.8.8:53"])) MAX_IPS_PER_BATCH)).map
            (fun d => d.length)).sum,
        (fetchedPerChunk envC4W 0 (chunkArray (getNewIps envC4W.findFail []
          (extractUniqueIps ["8.8.8.8:53"])) MAX_IPS_PER_BATCH)).countP
          (fun d => !d.isEmpty)⟩ ∧
    (processNewIps envC4W [] ["8.8.8.8:53"]).2.length =
      ([] : List GeoRecord).length +
        ((fetchedPerChunk envC4W 0 (chunkArray (getNewIps envC4W.findFail []
          (extractUniqueIps ["8.8.8.8:53"])) MAX_IPS_PER_BATCH)).map
            (fun d => d.length)).sum :=
  processNewIps_aggregate envC4W [] ["8.8.8.8:53"]
    (fun _ => ⟨rfl, rfl⟩) (by decide)

end Dashboard
